import Mathlib

/-!
Shallow embedding of the array-backed doubly linked lists of
src/arr-list/array_linked_list_fast_soa.hpp (structure-of-arrays layout,
namespace Soa below) and src/arr-list/array_linked_list_slow_aos.hpp
(array-of-structs layout, namespace Aos below).

Modelling conventions:
* C++ int indices are Lean Int, with kNull = -1 as in the source.
* vector reads l[i] are nthI with an explicit default (reads stay in range
  on the traces we reason about); writes are setI (List.set, a no-op out
  of range, matching that no write lands out of range on those traces).
* std::uint32_t generation arithmetic is Nat modulo 2 ^ 32;
  std::size_t size arithmetic is Nat modulo 2 ^ 64 (so --size_ on 0 wraps
  to 2 ^ 64 - 1 exactly as in C++).
* every C++ throw becomes an Except.error carrying the spec error kind;
  each throw in the source happens before any mutation, and the embedding
  keeps that statement order.
* for_each is a while loop; it is embedded with explicit fuel
  (capacity), which coincides with the loop whenever the next-chain from
  head_ reaches -1 within capacity steps, i.e. on every acyclic chain.
-/

deriving instance DecidableEq for Except

namespace ArrList

/-- Error kinds of the spec, in the order of spec section 7. InvalidIndex is
the out_of_range thrown by ensure_valid_node (used only by at). -/
inductive Err where
  | InvalidCapacity
  | CapacityExhausted
  | InvalidHandle
  | NoSuccessor
  | Empty
  | InvalidIndex
  deriving DecidableEq, Repr

/-- NodeHandle of both headers: an int index plus a uint32 generation. -/
structure NodeHandle where
  index : Int := -1
  generation : Nat := 0
  deriving DecidableEq, Repr

instance : Inhabited NodeHandle := ⟨{}⟩

/-- Modulus of std::uint32_t (the generation counters). -/
def UINT32_MOD : Nat := 2 ^ 32

/-- Modulus of std::size_t (the size_ member). -/
def SIZET_MOD : Nat := 2 ^ 64

/-- Read l[i] at an int index, default d when out of range. -/
def nthI (l : List α) (d : α) (i : Int) : α :=
  if 0 ≤ i then l.getD i.toNat d else d

/-- Write l[i] := a at an int index, no-op when out of range. -/
def setI (l : List α) (i : Int) (a : α) : List α :=
  if 0 ≤ i then l.set i.toNat a else l

/-- Structure-of-arrays list state: the private members of the fast header. -/
structure Soa (T : Type) where
  values_ : List T
  next_ : List Int
  prev_ : List Int
  generations_ : List Nat
  free_list_ : List Int
  head_ : Int := -1
  tail_ : Int := -1
  size_ : Nat := 0
  deriving DecidableEq, Repr

namespace Soa

variable {T : Type} [Inhabited T]

/-- Constructor: throws InvalidCapacity on zero capacity, else all slots
default, all links null, all generations zero, free list [cap-1, ..., 0]. -/
def init (T : Type) [Inhabited T] (capacity : Nat) : Except Err (Soa T) :=
  if capacity = 0 then .error .InvalidCapacity
  else .ok { values_ := List.replicate capacity default
           , next_ := List.replicate capacity (-1)
           , prev_ := List.replicate capacity (-1)
           , generations_ := List.replicate capacity 0
           , free_list_ := (List.range capacity).reverse.map Int.ofNat }

def capacity (s : Soa T) : Nat := s.values_.length

def size (s : Soa T) : Nat := s.size_

def isEmpty (s : Soa T) : Bool := s.size_ == 0

/-- ensure_valid_handle as a test: in range and matching generation
(the source negates this to decide whether to throw). -/
def validHandle (s : Soa T) (h : NodeHandle) : Bool :=
  decide (0 ≤ h.index ∧ h.index < (s.capacity : Int) ∧
          nthI s.generations_ 0 h.index = h.generation)

/-- allocate_node: pop the back of the free list, store the value, reset the
links, bump the generation (uint32 arithmetic), return handle and state. -/
def allocate_node (s : Soa T) (v : T) : Except Err (NodeHandle × Soa T) :=
  match s.free_list_.getLast? with
  | none => .error .CapacityExhausted
  | some idx =>
      let g := (nthI s.generations_ 0 idx + 1) % UINT32_MOD
      .ok ({ index := idx, generation := g },
           { s with values_ := setI s.values_ idx v
                  , next_ := setI s.next_ idx (-1)
                  , prev_ := setI s.prev_ idx (-1)
                  , generations_ := setI s.generations_ idx g
                  , free_list_ := s.free_list_.dropLast })

/-- release_node: reset the links, push the index on the free list.
Generations are untouched. -/
def release_node (s : Soa T) (idx : Int) : Soa T :=
  { s with next_ := setI s.next_ idx (-1)
         , prev_ := setI s.prev_ idx (-1)
         , free_list_ := s.free_list_ ++ [idx] }

/-- emplace_front / push_front. -/
def push_front (s : Soa T) (v : T) : Except Err (NodeHandle × Soa T) :=
  match allocate_node s v with
  | .error e => .error e
  | .ok (h, s1) =>
      let idx := h.index
      let s2 := { s1 with prev_ := setI s1.prev_ idx (-1)
                        , next_ := setI s1.next_ idx s1.head_ }
      let s3 := if s2.head_ ≠ -1 then { s2 with prev_ := setI s2.prev_ s2.head_ idx }
                else { s2 with tail_ := idx }
      .ok (h, { s3 with head_ := idx, size_ := (s3.size_ + 1) % SIZET_MOD })

/-- emplace_back / push_back. -/
def push_back (s : Soa T) (v : T) : Except Err (NodeHandle × Soa T) :=
  match allocate_node s v with
  | .error e => .error e
  | .ok (h, s1) =>
      let idx := h.index
      let s2 := { s1 with next_ := setI s1.next_ idx (-1)
                        , prev_ := setI s1.prev_ idx s1.tail_ }
      let s3 := if s2.tail_ ≠ -1 then { s2 with next_ := setI s2.next_ s2.tail_ idx }
                else { s2 with head_ := idx }
      .ok (h, { s3 with tail_ := idx, size_ := (s3.size_ + 1) % SIZET_MOD })

/-- emplace_after / insert_after: validity check first, then allocation,
then splicing after handle.index (reading next_[node_index] after the
allocation, exactly as the source does). -/
def insert_after (s : Soa T) (h : NodeHandle) (v : T) :
    Except Err (NodeHandle × Soa T) :=
  if validHandle s h then
    match allocate_node s v with
    | .error e => .error e
    | .ok (nh, s1) =>
        let node_index := h.index
        let idx := nh.index
        let old_next := nthI s1.next_ (-1) node_index
        let s2 := { s1 with prev_ := setI s1.prev_ idx node_index
                          , next_ := setI (setI s1.next_ idx old_next) node_index idx }
        let s3 := if old_next ≠ -1 then { s2 with prev_ := setI s2.prev_ old_next idx }
                  else { s2 with tail_ := idx }
        .ok (nh, { s3 with size_ := (s3.size_ + 1) % SIZET_MOD })
  else .error .InvalidHandle

/-- pop_front: Empty when head_ is null, else unlink the head slot, wrap-around
decrement of size_, read the value, release the slot. -/
def pop_front (s : Soa T) : Except Err (T × Soa T) :=
  if s.head_ = -1 then .error .Empty
  else
    let idx := s.head_
    let s1 := { s with head_ := nthI s.next_ (-1) idx }
    let s2 := if s1.head_ ≠ -1 then { s1 with prev_ := setI s1.prev_ s1.head_ (-1) }
              else { s1 with tail_ := -1 }
    let s3 := { s2 with size_ := (s2.size_ + (SIZET_MOD - 1)) % SIZET_MOD }
    .ok (nthI s3.values_ default idx, release_node s3 idx)

/-- erase_after: validity check, then NoSuccessor when next_[node_index] is
null, else unlink and release the successor. -/
def erase_after (s : Soa T) (h : NodeHandle) : Except Err (Soa T) :=
  if validHandle s h then
    let node_index := h.index
    let target := nthI s.next_ (-1) node_index
    if target = -1 then .error .NoSuccessor
    else
      let new_next := nthI s.next_ (-1) target
      let s1 := { s with next_ := setI s.next_ node_index new_next }
      let s2 := if new_next ≠ -1 then { s1 with prev_ := setI s1.prev_ new_next node_index }
                else { s1 with tail_ := node_index }
      let s3 := { s2 with size_ := (s2.size_ + (SIZET_MOD - 1)) % SIZET_MOD }
      .ok (release_node s3 target)
  else .error .InvalidHandle

/-- erase: validity check, then splice the slot out (fixing head_/tail_ at the
endpoints), wrap-around decrement of size_, release the slot. -/
def erase (s : Soa T) (h : NodeHandle) : Except Err (Soa T) :=
  if validHandle s h then
    let node_index := h.index
    let pv := nthI s.prev_ (-1) node_index
    let nx := nthI s.next_ (-1) node_index
    let s1 := if pv ≠ -1 then { s with next_ := setI s.next_ pv nx }
              else { s with head_ := nx }
    let s2 := if nx ≠ -1 then { s1 with prev_ := setI s1.prev_ nx pv }
              else { s1 with tail_ := pv }
    let s3 := { s2 with size_ := (s2.size_ + (SIZET_MOD - 1)) % SIZET_MOD }
    .ok (release_node s3 node_index)
  else .error .InvalidHandle

/-- The body of for_each with explicit fuel: emit (value, index) and follow
next_ until the null index (or the fuel runs out). -/
def traverseFrom (s : Soa T) : Nat → Int → List (T × Int)
  | 0, _ => []
  | fuel + 1, idx =>
      if idx = -1 then []
      else (nthI s.values_ default idx, idx) :: traverseFrom s fuel (nthI s.next_ (-1) idx)

/-- for_each output, fuel capacity (enough for every acyclic chain). -/
def forEachOut (s : Soa T) : List (T × Int) := traverseFrom s s.capacity s.head_

/-- at: ensure_valid_node (a pure range check) then values_[node_index]. -/
def atIdx (s : Soa T) (node_index : Int) : Except Err T :=
  if node_index < 0 ∨ (s.capacity : Int) ≤ node_index then .error .InvalidIndex
  else .ok (nthI s.values_ default node_index)

end Soa

/-- One slot of the array-of-structs header: value, both links, generation. -/
structure Node (T : Type) where
  value : T
  next : Int := -1
  prev : Int := -1
  generation : Nat := 0
  deriving DecidableEq, Repr

instance [Inhabited T] : Inhabited (Node T) := ⟨{ value := default }⟩

/-- Array-of-structs list state: the private members of the slow header. -/
structure Aos (T : Type) where
  nodes_ : List (Node T)
  free_list_ : List Int
  head_ : Int := -1
  tail_ : Int := -1
  size_ : Nat := 0
  deriving DecidableEq, Repr

/-- One C++ assignment nodes_[i].field = x, as an update of the node list. -/
def modNode [Inhabited T] (l : List (Node T)) (i : Int) (f : Node T → Node T) :
    List (Node T) :=
  setI l i (f (nthI l default i))

namespace Aos

variable {T : Type} [Inhabited T]

/-- Constructor of the slow header. -/
def init (T : Type) [Inhabited T] (capacity : Nat) : Except Err (Aos T) :=
  if capacity = 0 then .error .InvalidCapacity
  else .ok { nodes_ := List.replicate capacity default
           , free_list_ := (List.range capacity).reverse.map Int.ofNat }

def capacity (s : Aos T) : Nat := s.nodes_.length

def size (s : Aos T) : Nat := s.size_

def isEmpty (s : Aos T) : Bool := s.size_ == 0

/-- ensure_valid_handle of the slow header. -/
def validHandle (s : Aos T) (h : NodeHandle) : Bool :=
  decide (0 ≤ h.index ∧ h.index < (s.capacity : Int) ∧
          (nthI s.nodes_ default h.index).generation = h.generation)

/-- allocate_node of the slow header (field assignments in source order). -/
def allocate_node (s : Aos T) (v : T) : Except Err (NodeHandle × Aos T) :=
  match s.free_list_.getLast? with
  | none => .error .CapacityExhausted
  | some idx =>
      let n1 := modNode s.nodes_ idx (fun n => { n with value := v })
      let n2 := modNode n1 idx (fun n => { n with next := -1 })
      let n3 := modNode n2 idx (fun n => { n with prev := -1 })
      let g := ((nthI n3 default idx).generation + 1) % UINT32_MOD
      let n4 := modNode n3 idx (fun n => { n with generation := g })
      .ok ({ index := idx, generation := g },
           { s with nodes_ := n4, free_list_ := s.free_list_.dropLast })

/-- release_node of the slow header. -/
def release_node (s : Aos T) (idx : Int) : Aos T :=
  { s with nodes_ := modNode (modNode s.nodes_ idx (fun n => { n with next := -1 }))
                       idx (fun n => { n with prev := -1 })
         , free_list_ := s.free_list_ ++ [idx] }

/-- emplace_front / push_front of the slow header. -/
def push_front (s : Aos T) (v : T) : Except Err (NodeHandle × Aos T) :=
  match allocate_node s v with
  | .error e => .error e
  | .ok (h, s1) =>
      let idx := h.index
      let n1 := modNode s1.nodes_ idx (fun n => { n with prev := -1 })
      let n2 := modNode n1 idx (fun n => { n with next := s1.head_ })
      let s2 := { s1 with nodes_ := n2 }
      let s3 := if s2.head_ ≠ -1 then
                  { s2 with nodes_ := modNode s2.nodes_ s2.head_ (fun n => { n with prev := idx }) }
                else { s2 with tail_ := idx }
      .ok (h, { s3 with head_ := idx, size_ := (s3.size_ + 1) % SIZET_MOD })

/-- emplace_back / push_back of the slow header. -/
def push_back (s : Aos T) (v : T) : Except Err (NodeHandle × Aos T) :=
  match allocate_node s v with
  | .error e => .error e
  | .ok (h, s1) =>
      let idx := h.index
      let n1 := modNode s1.nodes_ idx (fun n => { n with next := -1 })
      let n2 := modNode n1 idx (fun n => { n with prev := s1.tail_ })
      let s2 := { s1 with nodes_ := n2 }
      let s3 := if s2.tail_ ≠ -1 then
                  { s2 with nodes_ := modNode s2.nodes_ s2.tail_ (fun n => { n with next := idx }) }
                else { s2 with head_ := idx }
      .ok (h, { s3 with tail_ := idx, size_ := (s3.size_ + 1) % SIZET_MOD })

/-- emplace_after / insert_after of the slow header. -/
def insert_after (s : Aos T) (h : NodeHandle) (v : T) :
    Except Err (NodeHandle × Aos T) :=
  if validHandle s h then
    match allocate_node s v with
    | .error e => .error e
    | .ok (nh, s1) =>
        let node_index := h.index
        let idx := nh.index
        let old_next := (nthI s1.nodes_ default node_index).next
        let n1 := modNode s1.nodes_ idx (fun n => { n with prev := node_index })
        let n2 := modNode n1 idx (fun n => { n with next := old_next })
        let n3 := modNode n2 node_index (fun n => { n with next := idx })
        let s2 := { s1 with nodes_ := n3 }
        let s3 := if old_next ≠ -1 then
                    { s2 with nodes_ := modNode s2.nodes_ old_next (fun n => { n with prev := idx }) }
                  else { s2 with tail_ := idx }
        .ok (nh, { s3 with size_ := (s3.size_ + 1) % SIZET_MOD })
  else .error .InvalidHandle

/-- pop_front of the slow header. -/
def pop_front (s : Aos T) : Except Err (T × Aos T) :=
  if s.head_ = -1 then .error .Empty
  else
    let idx := s.head_
    let s1 := { s with head_ := (nthI s.nodes_ default idx).next }
    let s2 := if s1.head_ ≠ -1 then
                { s1 with nodes_ := modNode s1.nodes_ s1.head_ (fun n => { n with prev := -1 }) }
              else { s1 with tail_ := -1 }
    let s3 := { s2 with size_ := (s2.size_ + (SIZET_MOD - 1)) % SIZET_MOD }
    .ok ((nthI s3.nodes_ default idx).value, release_node s3 idx)

/-- erase_after of the slow header. -/
def erase_after (s : Aos T) (h : NodeHandle) : Except Err (Aos T) :=
  if validHandle s h then
    let node_index := h.index
    let target := (nthI s.nodes_ default node_index).next
    if target = -1 then .error .NoSuccessor
    else
      let new_next := (nthI s.nodes_ default target).next
      let s1 := { s with nodes_ := modNode s.nodes_ node_index (fun n => { n with next := new_next }) }
      let s2 := if new_next ≠ -1 then
                  { s1 with nodes_ := modNode s1.nodes_ new_next (fun n => { n with prev := node_index }) }
                else { s1 with tail_ := node_index }
      let s3 := { s2 with size_ := (s2.size_ + (SIZET_MOD - 1)) % SIZET_MOD }
      .ok (release_node s3 target)
  else .error .InvalidHandle

/-- erase of the slow header. -/
def erase (s : Aos T) (h : NodeHandle) : Except Err (Aos T) :=
  if validHandle s h then
    let node_index := h.index
    let pv := (nthI s.nodes_ default node_index).prev
    let nx := (nthI s.nodes_ default node_index).next
    let s1 := if pv ≠ -1 then { s with nodes_ := modNode s.nodes_ pv (fun n => { n with next := nx }) }
              else { s with head_ := nx }
    let s2 := if nx ≠ -1 then { s1 with nodes_ := modNode s1.nodes_ nx (fun n => { n with prev := pv }) }
              else { s1 with tail_ := pv }
    let s3 := { s2 with size_ := (s2.size_ + (SIZET_MOD - 1)) % SIZET_MOD }
    .ok (release_node s3 node_index)
  else .error .InvalidHandle

/-- The body of for_each of the slow header, with explicit fuel. -/
def traverseFrom (s : Aos T) : Nat → Int → List (T × Int)
  | 0, _ => []
  | fuel + 1, idx =>
      if idx = -1 then []
      else ((nthI s.nodes_ default idx).value, idx) ::
           traverseFrom s fuel (nthI s.nodes_ default idx).next

/-- for_each output of the slow header, fuel capacity. -/
def forEachOut (s : Aos T) : List (T × Int) := traverseFrom s s.capacity s.head_

/-- at of the slow header. -/
def atIdx (s : Aos T) (node_index : Int) : Except Err T :=
  if node_index < 0 ∨ (s.capacity : Int) ≤ node_index then .error .InvalidIndex
  else .ok (nthI s.nodes_ default node_index).value

end Aos

/-- Operation alphabet used by the differential test and the sequence claims. -/
inductive Op (T : Type) where
  | pushFront (v : T)
  | pushBack (v : T)
  | insertAfter (h : NodeHandle) (v : T)
  | eraseOp (h : NodeHandle)
  | eraseAfter (h : NodeHandle)
  | popFront
  | sizeQ
  | forEachQ
  deriving DecidableEq, Repr

/-- Observable outcome of one operation: the returned handle or value, the
size or iteration output of a query, or the thrown error kind. -/
inductive Out (T : Type) where
  | ok
  | okH (h : NodeHandle)
  | okV (v : T)
  | okN (n : Nat)
  | okL (l : List (T × Int))
  | err (e : Err)
  deriving DecidableEq, Repr

namespace Soa

variable {T : Type} [Inhabited T]

/-- Dispatch one operation on the SoA list; a thrown error leaves the state
as the source does (every throw happens before any mutation). -/
def step (s : Soa T) (op : Op T) : Out T × Soa T :=
  match op with
  | .pushFront v => match push_front s v with
      | .ok (h, s') => (.okH h, s')
      | .error e => (.err e, s)
  | .pushBack v => match push_back s v with
      | .ok (h, s') => (.okH h, s')
      | .error e => (.err e, s)
  | .insertAfter h v => match insert_after s h v with
      | .ok (nh, s') => (.okH nh, s')
      | .error e => (.err e, s)
  | .eraseOp h => match erase s h with
      | .ok s' => (.ok, s')
      | .error e => (.err e, s)
  | .eraseAfter h => match erase_after s h with
      | .ok s' => (.ok, s')
      | .error e => (.err e, s)
  | .popFront => match pop_front s with
      | .ok (v, s') => (.okV v, s')
      | .error e => (.err e, s)
  | .sizeQ => (.okN s.size_, s)
  | .forEachQ => (.okL (forEachOut s), s)

/-- Run a sequence of operations. -/
def run (s : Soa T) : List (Op T) → Soa T
  | [] => s
  | op :: ops => run (step s op).2 ops

/-- Per-step observation: result, size() and for_each output after the step. -/
def obsTrace (s : Soa T) : List (Op T) → List (Out T × Nat × List (T × Int))
  | [] => []
  | op :: ops =>
      let r := step s op
      (r.1, r.2.size_, forEachOut r.2) :: obsTrace r.2 ops

/-- Construct with the given capacity and observe a whole run. -/
def runInit (T : Type) [Inhabited T] (capacity : Nat) (ops : List (Op T)) :
    Except Err (List (Out T × Nat × List (T × Int))) :=
  match init T capacity with
  | .error e => .error e
  | .ok s => .ok (obsTrace s ops)

end Soa

namespace Aos

variable {T : Type} [Inhabited T]

/-- Dispatch one operation on the AoS list. -/
def step (s : Aos T) (op : Op T) : Out T × Aos T :=
  match op with
  | .pushFront v => match push_front s v with
      | .ok (h, s') => (.okH h, s')
      | .error e => (.err e, s)
  | .pushBack v => match push_back s v with
      | .ok (h, s') => (.okH h, s')
      | .error e => (.err e, s)
  | .insertAfter h v => match insert_after s h v with
      | .ok (nh, s') => (.okH nh, s')
      | .error e => (.err e, s)
  | .eraseOp h => match erase s h with
      | .ok s' => (.ok, s')
      | .error e => (.err e, s)
  | .eraseAfter h => match erase_after s h with
      | .ok s' => (.ok, s')
      | .error e => (.err e, s)
  | .popFront => match pop_front s with
      | .ok (v, s') => (.okV v, s')
      | .error e => (.err e, s)
  | .sizeQ => (.okN s.size_, s)
  | .forEachQ => (.okL (forEachOut s), s)

/-- Run a sequence of operations. -/
def run (s : Aos T) : List (Op T) → Aos T
  | [] => s
  | op :: ops => run (step s op).2 ops

/-- Per-step observation: result, size() and for_each output after the step. -/
def obsTrace (s : Aos T) : List (Op T) → List (Out T × Nat × List (T × Int))
  | [] => []
  | op :: ops =>
      let r := step s op
      (r.1, r.2.size_, forEachOut r.2) :: obsTrace r.2 ops

/-- Construct with the given capacity and observe a whole run. -/
def runInit (T : Type) [Inhabited T] (capacity : Nat) (ops : List (Op T)) :
    Except Err (List (Out T × Nat × List (T × Int))) :=
  match init T capacity with
  | .error e => .error e
  | .ok s => .ok (obsTrace s ops)

/-- Column-layout view of an AoS state: the four parallel arrays obtained by
projecting each field of the node array. -/
def toSoa (s : Aos T) : Soa T :=
  { values_ := s.nodes_.map (fun n => n.value)
  , next_ := s.nodes_.map (fun n => n.next)
  , prev_ := s.nodes_.map (fun n => n.prev)
  , generations_ := s.nodes_.map (fun n => n.generation)
  , free_list_ := s.free_list_
  , head_ := s.head_
  , tail_ := s.tail_
  , size_ := s.size_ }

end Aos

/-- Extract the payload of a successful call (the concrete scenarios below
only apply it to calls proved successful in the same statement). -/
def getOk (e : Except Err α) (d : α) : α :=
  match e with
  | .ok a => a
  | .error _ => d

/-- A placeholder state used only as the default of getOk. -/
def junkSoa : Soa Nat :=
  { values_ := [], next_ := [], prev_ := [], generations_ := [], free_list_ := [] }

/-- C1 scenario, capacity 1: the freshly constructed list. -/
def c1s0 : Soa Nat := getOk (Soa.init Nat 1) junkSoa

/-- C1 scenario: handle returned by push_front 42. -/
def c1h : NodeHandle := (getOk (Soa.push_front c1s0 42) (default, junkSoa)).1

/-- C1 scenario: state after push_front 42. -/
def c1s1 : Soa Nat := (getOk (Soa.push_front c1s0 42) (default, junkSoa)).2

/-- C1 scenario: state after erase of the only element. -/
def c1s2 : Soa Nat := getOk (Soa.erase c1s1 c1h) junkSoa

/-- C1 scenario: state after the second erase through the same handle. -/
def c1s3 : Soa Nat := getOk (Soa.erase c1s2 c1h) junkSoa

/-- C10 scenario: capacity-1 list after push_front 42 then pop_front: slot 0
is back on the free list yet still holds the value 42. -/
def c10s : Soa Nat :=
  (getOk (Soa.pop_front (getOk (Soa.push_front (getOk (Soa.init Nat 1) junkSoa) 42)
    (default, junkSoa)).2) (0, junkSoa)).2

/-- Is this operation one of the three insertions? -/
def Op.isInsert {T : Type} : Op T → Bool
  | .pushFront _ | .pushBack _ | .insertAfter _ _ => true
  | _ => false

/-- Is this operation one of the three removals? -/
def Op.isRemove {T : Type} : Op T → Bool
  | .eraseOp _ | .eraseAfter _ | .popFront => true
  | _ => false

/-- Did the operation succeed? -/
def Out.isOk {T : Type} : Out T → Bool
  | .err _ => false
  | _ => true

/-- Is the outcome the CapacityExhausted error? -/
def Out.isCE {T : Type} : Out T → Bool
  | .err .CapacityExhausted => true
  | _ => false

/-- Successful insertions minus successful removals along a run. -/
def Soa.net {T : Type} [Inhabited T] (s : Soa T) : List (Op T) → Int
  | [] => 0
  | op :: ops =>
      (if op.isInsert && (Soa.step s op).1.isOk then 1
       else if op.isRemove && (Soa.step s op).1.isOk then -1 else 0)
        + Soa.net (Soa.step s op).2 ops

/-- Does some operation of the run fail with CapacityExhausted? -/
def Soa.hitsCE {T : Type} [Inhabited T] (s : Soa T) : List (Op T) → Bool
  | [] => false
  | op :: ops =>
      (Soa.step s op).1.isCE || Soa.hitsCE (Soa.step s op).2 ops

/-- The run keeps the live count inside [0, capacity]: every insertion is
attempted with size_ + 1 <= capacity, and every successful removal starts
from at least one live element. -/
def Soa.wellBounded {T : Type} [Inhabited T] (s : Soa T) : List (Op T) → Bool
  | [] => true
  | op :: ops =>
      (!op.isInsert || decide (s.size_ + 1 ≤ Soa.capacity s))
      && (!(op.isRemove && (Soa.step s op).1.isOk) || decide (1 ≤ s.size_))
      && Soa.wellBounded (Soa.step s op).2 ops

/-- The capacity-1 list state reached after some push-pop cycles: only the
slot-0 generation g varies. -/
def cycState (g : Nat) : Soa Nat :=
  { values_ := [0], next_ := [-1], prev_ := [-1], generations_ := [g]
  , free_list_ := [0], head_ := -1, tail_ := -1, size_ := 0 }

/-- n cycles of push_front then pop_front on the capacity-1 list. -/
def pushPopOps (n : Nat) : List (Op Nat) :=
  (List.replicate n [Op.pushFront 0, Op.popFront]).flatten

/-- One pushBack operation per value. -/
def pushBackOps {T : Type} (vs : List T) : List (Op T) := vs.map Op.pushBack

/-- One pushFront operation per value. -/
def pushFrontOps {T : Type} (vs : List T) : List (Op T) := vs.map Op.pushFront

/-- Does the next_ array link h through exactly the index list l to -1? -/
def chainB (nx : List Int) : Int → List Nat → Bool
  | h, [] => h == -1
  | h, i :: l => h == (i : Int) && decide (i < nx.length)
                   && chainB nx (nthI nx (-1) (i : Int)) l

/-- Does each listed slot's prev_ point to its predecessor (p before the
first)? -/
def prevB (pv : List Int) : Int → List Nat → Bool
  | _, [] => true
  | p, i :: l => nthI pv (-1) (i : Int) == p && prevB pv (i : Int) l

/-- The index of the last chain element, or -1. -/
def lastIdx (l : List Nat) : Int :=
  match l.getLast? with
  | none => -1
  | some i => (i : Int)

/-- Representation invariant of the list: l lists the live chain from head_
to tail_, prev_ mirrors next_, the chain has no duplicates, size_ is the
chain length, and the parallel arrays have equal length. -/
def Soa.wfB {T : Type} [Inhabited T] (s : Soa T) (l : List Nat) : Bool :=
  chainB s.next_ s.head_ l && prevB s.prev_ (-1) l && (s.tail_ == lastIdx l)
  && decide l.Nodup && (s.size_ == l.length)
  && (s.next_.length == s.values_.length) && (s.prev_.length == s.values_.length)

/-- C6 scenario: the freshly constructed capacity-1 list. -/
def c6s0 : Soa Nat := getOk (Soa.init Nat 1) junkSoa

/-- C3 scenario: the freshly constructed capacity-2 list. -/
def c3s0 : Soa Nat := getOk (Soa.init Nat 2) junkSoa

/-- C7 scenario: the freshly constructed capacity-3 list. -/
def c7s0 : Soa Nat := getOk (Soa.init Nat 3) junkSoa

/-- C8 scenario: fresh capacity-3 list. -/
def c8s0 : Soa Nat := getOk (Soa.init Nat 3) junkSoa

/-- C8 scenario: push_back 1,2,3 then erase the middle handle twice (the
second erase passes validation because release does not bump generations, and
its reset links overwrite head_ and tail_ with -1). -/
def c8s : Soa Nat :=
  Soa.run c8s0
    [Op.pushBack 1, Op.pushBack 2, Op.pushBack 3,
     Op.eraseOp { index := 1, generation := 1 }, Op.eraseOp { index := 1, generation := 1 }]

/-- C9 witness scenario: capacity-3 list holding 10, 20, 30 in slots 0,1,2. -/
def c9s : Soa Nat :=
  Soa.run (getOk (Soa.init Nat 3) junkSoa) [Op.pushBack 10, Op.pushBack 20, Op.pushBack 30]

/-!
## Theorems

Helper lemmas first, then one theorem (plus witness or counterexample
material) per claim.
-/

theorem length_setI (l : List α) (i : Int) (a : α) : (setI l i a).length = l.length := by
  unfold setI; split <;> simp

theorem nthI_setI_self (l : List α) (d : α) (i : Int) (a : α)
    (h0 : 0 ≤ i) (hl : i.toNat < l.length) : nthI (setI l i a) d i = a := by
  unfold nthI setI
  simp [h0, List.getD, List.getElem?_set_self (by omega : i.toNat < l.length)]

theorem nthI_setI_ne (l : List α) (d : α) (i j : Int) (a : α)
    (hne : i ≠ j) : nthI (setI l i a) d j = nthI l d j := by
  unfold nthI setI
  by_cases h0 : 0 ≤ i
  · by_cases h1 : 0 ≤ j
    · have : i.toNat ≠ j.toNat := by omega
      simp [h0, h1, List.getD, List.getElem?_set_ne this]
    · simp [h0, h1]
  · simp [h0]

theorem nthI_map (g : α → β) (l : List α) (d : α) (i : Int) :
    nthI (l.map g) (g d) i = g (nthI l d i) := by
  unfold nthI
  split
  · simp only [List.getD_eq_getElem?_getD, List.getElem?_map]
    cases l[i.toNat]? <;> rfl
  · rfl

theorem map_setI (g : α → β) (l : List α) (i : Int) (a : α) :
    (setI l i a).map g = setI (l.map g) i (g a) := by
  unfold setI
  split <;> simp

theorem set_nth_self (l : List α) (n : Nat) (h : n < l.length) : l.set n l[n] = l := by
  apply List.ext_getElem
  · simp
  · intro i h1 h2
    by_cases hin : n = i
    · subst hin; simp
    · rw [List.getElem_set_ne (by omega)]

theorem setI_nthI_self (l : List α) (d : α) (i : Int) : setI l i (nthI l d i) = l := by
  unfold setI nthI
  split
  · rename_i h0
    by_cases hl : i.toNat < l.length
    · rw [List.getD_eq_getElem?_getD, List.getElem?_eq_getElem hl, Option.getD_some]
      exact set_nth_self l i.toNat hl
    · exact List.set_eq_of_length_le (by omega)
  · rfl

theorem map_modNode {T : Type} [Inhabited T] (g : Node T → β) (l : List (Node T))
    (i : Int) (f : Node T → Node T) :
    (modNode l i f).map g = setI (l.map g) i (g (f (nthI l default i))) := by
  unfold modNode; exact map_setI ..

theorem map_modNode_untouched {T : Type} [Inhabited T] (g : Node T → β)
    (l : List (Node T)) (i : Int) (f : Node T → Node T) (hf : ∀ n, g (f n) = g n) :
    (modNode l i f).map g = l.map g := by
  rw [map_modNode, hf, ← nthI_map g l default i, setI_nthI_self]

section ProjectionSimp

variable {T : Type} [Inhabited T] (l : List (Node T)) (i : Int)

@[simp] theorem pv_mod_value (v : T) :
    (modNode l i (fun n => { n with value := v })).map (fun n => n.value)
      = setI (l.map (fun n => n.value)) i v := map_modNode ..

@[simp] theorem pn_mod_next (x : Int) :
    (modNode l i (fun n => { n with next := x })).map (fun n => n.next)
      = setI (l.map (fun n => n.next)) i x := map_modNode ..

@[simp] theorem pp_mod_prev (x : Int) :
    (modNode l i (fun n => { n with prev := x })).map (fun n => n.prev)
      = setI (l.map (fun n => n.prev)) i x := map_modNode ..

@[simp] theorem pg_mod_gen (x : Nat) :
    (modNode l i (fun n => { n with generation := x })).map (fun n => n.generation)
      = setI (l.map (fun n => n.generation)) i x := map_modNode ..

@[simp] theorem pv_mod_next (x : Int) :
    (modNode l i (fun n => { n with next := x })).map (fun n => n.value)
      = l.map (fun n => n.value) := map_modNode_untouched _ _ _ _ (fun _ => rfl)

@[simp] theorem pv_mod_prev (x : Int) :
    (modNode l i (fun n => { n with prev := x })).map (fun n => n.value)
      = l.map (fun n => n.value) := map_modNode_untouched _ _ _ _ (fun _ => rfl)

@[simp] theorem pv_mod_gen (x : Nat) :
    (modNode l i (fun n => { n with generation := x })).map (fun n => n.value)
      = l.map (fun n => n.value) := map_modNode_untouched _ _ _ _ (fun _ => rfl)

@[simp] theorem pn_mod_value (v : T) :
    (modNode l i (fun n => { n with value := v })).map (fun n => n.next)
      = l.map (fun n => n.next) := map_modNode_untouched _ _ _ _ (fun _ => rfl)

@[simp] theorem pn_mod_prev (x : Int) :
    (modNode l i (fun n => { n with prev := x })).map (fun n => n.next)
      = l.map (fun n => n.next) := map_modNode_untouched _ _ _ _ (fun _ => rfl)

@[simp] theorem pn_mod_gen (x : Nat) :
    (modNode l i (fun n => { n with generation := x })).map (fun n => n.next)
      = l.map (fun n => n.next) := map_modNode_untouched _ _ _ _ (fun _ => rfl)

@[simp] theorem pp_mod_value (v : T) :
    (modNode l i (fun n => { n with value := v })).map (fun n => n.prev)
      = l.map (fun n => n.prev) := map_modNode_untouched _ _ _ _ (fun _ => rfl)

@[simp] theorem pp_mod_next (x : Int) :
    (modNode l i (fun n => { n with next := x })).map (fun n => n.prev)
      = l.map (fun n => n.prev) := map_modNode_untouched _ _ _ _ (fun _ => rfl)

@[simp] theorem pp_mod_gen (x : Nat) :
    (modNode l i (fun n => { n with generation := x })).map (fun n => n.prev)
      = l.map (fun n => n.prev) := map_modNode_untouched _ _ _ _ (fun _ => rfl)

@[simp] theorem pg_mod_value (v : T) :
    (modNode l i (fun n => { n with value := v })).map (fun n => n.generation)
      = l.map (fun n => n.generation) := map_modNode_untouched _ _ _ _ (fun _ => rfl)

@[simp] theorem pg_mod_next (x : Int) :
    (modNode l i (fun n => { n with next := x })).map (fun n => n.generation)
      = l.map (fun n => n.generation) := map_modNode_untouched _ _ _ _ (fun _ => rfl)

@[simp] theorem pg_mod_prev (x : Int) :
    (modNode l i (fun n => { n with prev := x })).map (fun n => n.generation)
      = l.map (fun n => n.generation) := map_modNode_untouched _ _ _ _ (fun _ => rfl)

@[simp] theorem nth_value :
    (nthI l default i).value = nthI (l.map (fun n => n.value)) default i :=
  (nthI_map (fun n => n.value) l default i).symm

@[simp] theorem nth_next :
    (nthI l default i).next = nthI (l.map (fun n => n.next)) (-1) i :=
  (nthI_map (fun n => n.next) l default i).symm

@[simp] theorem nth_prev :
    (nthI l default i).prev = nthI (l.map (fun n => n.prev)) (-1) i :=
  (nthI_map (fun n => n.prev) l default i).symm

@[simp] theorem nth_gen :
    (nthI l default i).generation = nthI (l.map (fun n => n.generation)) 0 i :=
  (nthI_map (fun n => n.generation) l default i).symm

end ProjectionSimp

/-- C1: a handle is valid immediately after its insertion, but erase does not
invalidate it: release_node never touches the generation, so the handle still
validates after erase and a second erase through it succeeds instead of
failing with InvalidHandle; the second erase wraps size_ to 2^64 - 1 and
pushes slot 0 on the free list a second time. -/
theorem C1_erase_leaves_handle_valid_and_double_erase_succeeds :
    Soa.init Nat 1 = .ok c1s0 ∧
    Soa.push_front c1s0 42 = .ok (c1h, c1s1) ∧
    Soa.validHandle c1s1 c1h = true ∧
    Soa.erase c1s1 c1h = .ok c1s2 ∧
    Soa.validHandle c1s2 c1h = true ∧
    Soa.erase c1s2 c1h = .ok c1s3 ∧
    c1s3.size_ = 2 ^ 64 - 1 ∧
    c1s3.free_list_ = [0, 0] := by
  refine ⟨by decide, by decide, by decide, by decide, by decide, by decide, by decide, by decide⟩

/-- C10: at(index) fails exactly for out-of-range indices, returns the stored
value for every in-range index whatever the rest of the state is (it reads
nothing but values_ and the range), and hence returns a value even for a slot
currently on the free list: after push then pop, at 0 still yields 42. -/
theorem C10_at_checks_only_index_range {T : Type} [Inhabited T] (s : Soa T) (i : Int) :
    (Soa.atIdx s i = .error .InvalidIndex ↔ (i < 0 ∨ (s.capacity : Int) ≤ i)) ∧
    (0 ≤ i → i < (s.capacity : Int) → Soa.atIdx s i = .ok (nthI s.values_ default i)) ∧
    (∀ nx pv g fl hd tl sz,
      Soa.atIdx { s with next_ := nx, prev_ := pv, generations_ := g,
                         free_list_ := fl, head_ := hd, tail_ := tl, size_ := sz } i =
        Soa.atIdx s i) ∧
    (c10s.free_list_ = [0] ∧ Soa.atIdx c10s 0 = .ok 42) := by
  refine ⟨?_, ?_, ?_, by decide, by decide⟩
  · unfold Soa.atIdx
    constructor
    · intro h
      by_contra hc
      push_neg at hc
      rw [if_neg (by omega)] at h
      exact Except.noConfusion h
    · intro h
      rw [if_pos h]
  · intro h0 h1
    unfold Soa.atIdx
    rw [if_neg (by omega)]
  · intro nx pv g fl hd tl sz
    unfold Soa.atIdx Soa.capacity
    rfl

/-- Witness for C10 at a concrete state and index. -/
theorem C10_at_checks_only_index_range_witness :
    Soa.atIdx c10s 0 = .ok (nthI c10s.values_ default 0) :=
  (C10_at_checks_only_index_range c10s 0).2.1 (by decide) (by decide)

/-- C5: every operation that throws leaves the list exactly as it was: in the
source every throw statement precedes the first mutation, so the state paired
with an error outcome is the state the call started from. -/
theorem C5_failed_call_is_noop {T : Type} [Inhabited T]
    (s : Soa T) (op : Op T) (e : Err) (s' : Soa T)
    (h : Soa.step s op = (.err e, s')) : s' = s := by
  cases op <;> simp only [Soa.step] at h
  case pushFront v =>
    cases hp : Soa.push_front s v <;> rw [hp] at h
    · exact (Prod.mk.injEq .. ▸ h).2.symm ▸ rfl
    · cases (Prod.mk.injEq .. ▸ h).1
  case pushBack v =>
    cases hp : Soa.push_back s v <;> rw [hp] at h
    · exact (Prod.mk.injEq .. ▸ h).2.symm ▸ rfl
    · cases (Prod.mk.injEq .. ▸ h).1
  case insertAfter hh v =>
    cases hp : Soa.insert_after s hh v <;> rw [hp] at h
    · exact (Prod.mk.injEq .. ▸ h).2.symm ▸ rfl
    · cases (Prod.mk.injEq .. ▸ h).1
  case eraseOp hh =>
    cases hp : Soa.erase s hh <;> rw [hp] at h
    · exact (Prod.mk.injEq .. ▸ h).2.symm ▸ rfl
    · cases (Prod.mk.injEq .. ▸ h).1
  case eraseAfter hh =>
    cases hp : Soa.erase_after s hh <;> rw [hp] at h
    · exact (Prod.mk.injEq .. ▸ h).2.symm ▸ rfl
    · cases (Prod.mk.injEq .. ▸ h).1
  case popFront =>
    cases hp : Soa.pop_front s <;> rw [hp] at h
    · exact (Prod.mk.injEq .. ▸ h).2.symm ▸ rfl
    · cases (Prod.mk.injEq .. ▸ h).1
  case sizeQ => cases (Prod.mk.injEq .. ▸ h).1
  case forEachQ => cases (Prod.mk.injEq .. ▸ h).1

/-- Witness for C5: pop_front on an empty list fails with Empty and returns
the state unchanged. -/
theorem C5_failed_call_is_noop_witness :
    Soa.step junkSoa .popFront = (.err .Empty, junkSoa) ∧ junkSoa = junkSoa :=
  ⟨by decide, C5_failed_call_is_noop junkSoa .popFront .Empty junkSoa (by decide)⟩


theorem validHandle_toSoa {T : Type} [Inhabited T] (s : Aos T) (h : NodeHandle) :
    Soa.validHandle (Aos.toSoa s) h = Aos.validHandle s h := by
  unfold Soa.validHandle Aos.validHandle Soa.capacity Aos.capacity Aos.toSoa
  simp only [List.length_map, nth_gen]

theorem allocate_toSoa {T : Type} [Inhabited T] (s : Aos T) (v : T) :
    Soa.allocate_node (Aos.toSoa s) v
      = (Aos.allocate_node s v).map (fun p => (p.1, Aos.toSoa p.2)) := by
  unfold Soa.allocate_node Aos.allocate_node Aos.toSoa
  simp only []
  cases hL : s.free_list_.getLast? with
  | none => rfl
  | some idx =>
      simp only [Except.map, nth_gen, pv_mod_value, pv_mod_next, pv_mod_prev, pv_mod_gen,
        pn_mod_value, pn_mod_next, pn_mod_prev, pn_mod_gen,
        pp_mod_value, pp_mod_next, pp_mod_prev, pp_mod_gen,
        pg_mod_value, pg_mod_next, pg_mod_prev, pg_mod_gen]


theorem push_front_toSoa {T : Type} [Inhabited T] (s : Aos T) (v : T) :
    Soa.push_front (Aos.toSoa s) v
      = (Aos.push_front s v).map (fun p => (p.1, Aos.toSoa p.2)) := by
  unfold Soa.push_front Aos.push_front
  rw [allocate_toSoa]
  cases hA : Aos.allocate_node s v with
  | error e => rfl
  | ok p =>
      obtain ⟨h, s1⟩ := p
      unfold Aos.toSoa
      by_cases hc : s1.head_ = -1 <;>
        simp [hc, Except.map, nth_gen, nth_next, nth_prev, nth_value]

theorem push_back_toSoa {T : Type} [Inhabited T] (s : Aos T) (v : T) :
    Soa.push_back (Aos.toSoa s) v
      = (Aos.push_back s v).map (fun p => (p.1, Aos.toSoa p.2)) := by
  unfold Soa.push_back Aos.push_back
  rw [allocate_toSoa]
  cases hA : Aos.allocate_node s v with
  | error e => rfl
  | ok p =>
      obtain ⟨h, s1⟩ := p
      unfold Aos.toSoa
      by_cases hc : s1.tail_ = -1 <;>
        simp [hc, Except.map, nth_gen, nth_next, nth_prev, nth_value]


theorem insert_after_toSoa {T : Type} [Inhabited T] (s : Aos T) (h : NodeHandle) (v : T) :
    Soa.insert_after (Aos.toSoa s) h v
      = (Aos.insert_after s h v).map (fun p => (p.1, Aos.toSoa p.2)) := by
  unfold Soa.insert_after Aos.insert_after
  rw [validHandle_toSoa]
  by_cases hv : Aos.validHandle s h
  · rw [if_pos hv, if_pos hv, allocate_toSoa]
    cases hA : Aos.allocate_node s v with
    | error e => rfl
    | ok p =>
        obtain ⟨nh, s1⟩ := p
        unfold Aos.toSoa
        by_cases hc : nthI (s1.nodes_.map fun n => n.next) (-1) h.index = -1 <;>
          simp [hc, Except.map, nth_gen, nth_next, nth_prev, nth_value]
  · rw [if_neg hv, if_neg hv]
    rfl

theorem pop_front_toSoa {T : Type} [Inhabited T] (s : Aos T) :
    Soa.pop_front (Aos.toSoa s)
      = (Aos.pop_front s).map (fun p => (p.1, Aos.toSoa p.2)) := by
  unfold Soa.pop_front Aos.pop_front Soa.release_node Aos.release_node
  by_cases h0 : s.head_ = -1
  · simp [Aos.toSoa, h0, Except.map]
  · unfold Aos.toSoa
    by_cases hc : nthI (s.nodes_.map fun n => n.next) (-1) s.head_ = -1 <;>
      simp [h0, hc, Except.map, nth_next, nth_value]

theorem erase_after_toSoa {T : Type} [Inhabited T] (s : Aos T) (h : NodeHandle) :
    Soa.erase_after (Aos.toSoa s) h
      = (Aos.erase_after s h).map Aos.toSoa := by
  unfold Soa.erase_after Aos.erase_after Soa.release_node Aos.release_node
  rw [validHandle_toSoa]
  by_cases hv : Aos.validHandle s h
  · rw [if_pos hv, if_pos hv]
    unfold Aos.toSoa
    by_cases ht : nthI (s.nodes_.map fun n => n.next) (-1) h.index = -1
    · simp [ht, Except.map, nth_next]
    · by_cases hn : nthI (s.nodes_.map fun n => n.next) (-1)
          (nthI (s.nodes_.map fun n => n.next) (-1) h.index) = -1 <;>
        simp [ht, hn, Except.map, nth_next, nth_value]
  · rw [if_neg hv, if_neg hv]
    rfl

theorem erase_toSoa {T : Type} [Inhabited T] (s : Aos T) (h : NodeHandle) :
    Soa.erase (Aos.toSoa s) h = (Aos.erase s h).map Aos.toSoa := by
  unfold Soa.erase Aos.erase Soa.release_node Aos.release_node
  rw [validHandle_toSoa]
  by_cases hv : Aos.validHandle s h
  · rw [if_pos hv, if_pos hv]
    unfold Aos.toSoa
    by_cases hp : nthI (s.nodes_.map fun n => n.prev) (-1) h.index = -1 <;>
      by_cases hn : nthI (s.nodes_.map fun n => n.next) (-1) h.index = -1 <;>
        simp [hp, hn, Except.map, nth_next, nth_prev, nth_value]
  · rw [if_neg hv, if_neg hv]
    rfl

theorem traverseFrom_toSoa {T : Type} [Inhabited T] (s : Aos T) (fuel : Nat) (idx : Int) :
    Soa.traverseFrom (Aos.toSoa s) fuel idx = Aos.traverseFrom s fuel idx := by
  induction fuel generalizing idx with
  | zero => rfl
  | succ n ih =>
      unfold Soa.traverseFrom Aos.traverseFrom
      by_cases hc : idx = -1
      · simp [hc]
      · rw [if_neg hc, if_neg hc]
        have hnext : nthI (Aos.toSoa s).next_ (-1) idx = (nthI s.nodes_ default idx).next := by
          simp [Aos.toSoa, nth_next]
        have hval : nthI (Aos.toSoa s).values_ default idx = (nthI s.nodes_ default idx).value := by
          simp [Aos.toSoa, nth_value]
        rw [hnext, hval, ih]

theorem forEachOut_toSoa {T : Type} [Inhabited T] (s : Aos T) :
    Soa.forEachOut (Aos.toSoa s) = Aos.forEachOut s := by
  unfold Soa.forEachOut Aos.forEachOut Soa.capacity Aos.capacity
  rw [traverseFrom_toSoa]
  simp [Aos.toSoa]

theorem step_toSoa {T : Type} [Inhabited T] (s : Aos T) (op : Op T) :
    Soa.step (Aos.toSoa s) op = ((Aos.step s op).1, Aos.toSoa (Aos.step s op).2) := by
  cases op
  case pushFront v =>
    simp only [Soa.step, Aos.step, push_front_toSoa]
    cases Aos.push_front s v with
    | error e => rfl
    | ok p => rfl
  case pushBack v =>
    simp only [Soa.step, Aos.step, push_back_toSoa]
    cases Aos.push_back s v with
    | error e => rfl
    | ok p => rfl
  case insertAfter h v =>
    simp only [Soa.step, Aos.step, insert_after_toSoa]
    cases Aos.insert_after s h v with
    | error e => rfl
    | ok p => rfl
  case eraseOp h =>
    simp only [Soa.step, Aos.step, erase_toSoa]
    cases Aos.erase s h with
    | error e => rfl
    | ok s' => rfl
  case eraseAfter h =>
    simp only [Soa.step, Aos.step, erase_after_toSoa]
    cases Aos.erase_after s h with
    | error e => rfl
    | ok s' => rfl
  case popFront =>
    simp only [Soa.step, Aos.step, pop_front_toSoa]
    cases Aos.pop_front s with
    | error e => rfl
    | ok p => rfl
  case sizeQ => rfl
  case forEachQ =>
    simp only [Soa.step, Aos.step, forEachOut_toSoa]

theorem obsTrace_toSoa {T : Type} [Inhabited T] (s : Aos T) (ops : List (Op T)) :
    Soa.obsTrace (Aos.toSoa s) ops = Aos.obsTrace s ops := by
  induction ops generalizing s with
  | nil => rfl
  | cons op ops ih =>
      unfold Soa.obsTrace Aos.obsTrace
      simp only [step_toSoa, forEachOut_toSoa, ih]
      rfl

theorem init_toSoa (T : Type) [Inhabited T] (c : Nat) :
    Soa.init T c = (Aos.init T c).map Aos.toSoa := by
  unfold Soa.init Aos.init
  by_cases hc : c = 0
  · simp [hc, Except.map]
  · simp [hc, Except.map, Aos.toSoa, List.map_replicate]
    exact ⟨rfl, rfl, rfl, rfl⟩


/-- C2: the row-layout (AoS) and column-layout (SoA) lists are observationally
identical: constructed with the same capacity and run on the same operation
sequence they give the same per-step results (handles, values, errors), the
same size() after every step and the same for_each output after every step.
Proved by exhibiting the column view of an AoS state (Aos.toSoa) as a
bisimulation. -/
theorem C2_row_and_column_layouts_equivalent (T : Type) [Inhabited T]
    (c : Nat) (ops : List (Op T)) :
    Soa.runInit T c ops = Aos.runInit T c ops := by
  unfold Soa.runInit Aos.runInit
  rw [init_toSoa]
  cases Aos.init T c with
  | error e => rfl
  | ok s =>
      simp only [Except.map]
      rw [obsTrace_toSoa]

/-- Witness for C2 on a concrete capacity and operation sequence. -/
theorem C2_row_and_column_layouts_equivalent_witness :
    Soa.runInit Nat 2 [Op.pushBack 7, Op.pushFront 9, Op.forEachQ, Op.popFront, Op.sizeQ]
      = Aos.runInit Nat 2 [Op.pushBack 7, Op.pushFront 9, Op.forEachQ, Op.popFront, Op.sizeQ] :=
  C2_row_and_column_layouts_equivalent Nat 2 _



theorem allocate_CE_iff {T : Type} [Inhabited T] (s : Soa T) (v : T) :
    Soa.allocate_node s v = .error .CapacityExhausted ↔ s.free_list_ = [] := by
  unfold Soa.allocate_node
  cases hL : s.free_list_.getLast? with
  | none => simp [List.getLast?_eq_none_iff.mp hL]
  | some idx =>
      constructor
      · intro h; exact absurd h (by simp)
      · intro h; rw [h] at hL; simp at hL

theorem allocate_ok_facts {T : Type} [Inhabited T] (s : Soa T) (v : T) (h' : NodeHandle) (s1 : Soa T)
    (hA : Soa.allocate_node s v = .ok (h', s1)) :
    s.free_list_ ≠ [] ∧ s1.free_list_.length + 1 = s.free_list_.length
    ∧ s1.size_ = s.size_ ∧ s1.head_ = s.head_ ∧ s1.tail_ = s.tail_
    ∧ s1.values_.length = s.values_.length := by
  unfold Soa.allocate_node at hA
  cases hL : s.free_list_.getLast? with
  | none => rw [hL] at hA; exact absurd hA (by simp)
  | some idx =>
      rw [hL] at hA
      have hnil : s.free_list_ ≠ [] := by
        intro h; rw [h] at hL; simp at hL
      simp only [Except.ok.injEq, Prod.mk.injEq] at hA
      obtain ⟨-, hs1⟩ := hA
      subst hs1
      refine ⟨hnil, ?_, rfl, rfl, rfl, by simp [length_setI]⟩
      have hpos : 0 < s.free_list_.length := List.length_pos.mpr hnil
      simp [List.length_dropLast]
      omega

theorem push_front_ok_facts {T : Type} [Inhabited T] (s : Soa T) (v : T) (h' : NodeHandle) (s' : Soa T)
    (hp : Soa.push_front s v = .ok (h', s')) :
    s.free_list_ ≠ [] ∧ s'.free_list_.length + 1 = s.free_list_.length
    ∧ s'.size_ = (s.size_ + 1) % SIZET_MOD ∧ s'.values_.length = s.values_.length := by
  unfold Soa.push_front at hp
  cases hA : Soa.allocate_node s v with
  | error e => rw [hA] at hp; exact absurd hp (by simp)
  | ok p =>
      obtain ⟨h1, s1⟩ := p
      rw [hA] at hp
      obtain ⟨hnil, hflen, hsz, hhd, htl, hvlen⟩ := allocate_ok_facts s v h1 s1 hA
      simp only [Except.ok.injEq, Prod.mk.injEq] at hp
      obtain ⟨-, hs'⟩ := hp
      subst hs'
      split <;> simp_all [length_setI]


theorem allocate_error_facts {T : Type} [Inhabited T] (s : Soa T) (v : T) (e : Err)
    (hA : Soa.allocate_node s v = .error e) :
    e = .CapacityExhausted ∧ s.free_list_ = [] := by
  unfold Soa.allocate_node at hA
  cases hL : s.free_list_.getLast? with
  | none =>
      rw [hL] at hA
      simp only [Except.error.injEq] at hA
      exact ⟨hA.symm, List.getLast?_eq_none_iff.mp hL⟩
  | some idx => rw [hL] at hA; exact absurd hA (by simp)

theorem push_back_ok_facts {T : Type} [Inhabited T] (s : Soa T) (v : T) (h' : NodeHandle) (s' : Soa T)
    (hp : Soa.push_back s v = .ok (h', s')) :
    s.free_list_ ≠ [] ∧ s'.free_list_.length + 1 = s.free_list_.length
    ∧ s'.size_ = (s.size_ + 1) % SIZET_MOD ∧ s'.values_.length = s.values_.length := by
  unfold Soa.push_back at hp
  cases hA : Soa.allocate_node s v with
  | error e => rw [hA] at hp; exact absurd hp (by simp)
  | ok p =>
      obtain ⟨h1, s1⟩ := p
      rw [hA] at hp
      obtain ⟨hnil, hflen, hsz, hhd, htl, hvlen⟩ := allocate_ok_facts s v h1 s1 hA
      simp only [Except.ok.injEq, Prod.mk.injEq] at hp
      obtain ⟨-, hs'⟩ := hp
      subst hs'
      split <;> simp_all [length_setI]

theorem push_front_error_facts {T : Type} [Inhabited T] (s : Soa T) (v : T) (e : Err)
    (hp : Soa.push_front s v = .error e) :
    e = .CapacityExhausted ∧ s.free_list_ = [] := by
  unfold Soa.push_front at hp
  cases hA : Soa.allocate_node s v with
  | error e1 =>
      rw [hA] at hp
      simp only [Except.error.injEq] at hp
      cases hp
      exact allocate_error_facts s v _ hA
  | ok p => obtain ⟨h1, s1⟩ := p; rw [hA] at hp; exact absurd hp (by simp)

theorem push_back_error_facts {T : Type} [Inhabited T] (s : Soa T) (v : T) (e : Err)
    (hp : Soa.push_back s v = .error e) :
    e = .CapacityExhausted ∧ s.free_list_ = [] := by
  unfold Soa.push_back at hp
  cases hA : Soa.allocate_node s v with
  | error e1 =>
      rw [hA] at hp
      simp only [Except.error.injEq] at hp
      cases hp
      exact allocate_error_facts s v _ hA
  | ok p => obtain ⟨h1, s1⟩ := p; rw [hA] at hp; exact absurd hp (by simp)

theorem insert_after_ok_facts {T : Type} [Inhabited T] (s : Soa T) (h : NodeHandle) (v : T)
    (h' : NodeHandle) (s' : Soa T) (hp : Soa.insert_after s h v = .ok (h', s')) :
    s.free_list_ ≠ [] ∧ s'.free_list_.length + 1 = s.free_list_.length
    ∧ s'.size_ = (s.size_ + 1) % SIZET_MOD ∧ s'.values_.length = s.values_.length := by
  unfold Soa.insert_after at hp
  by_cases hv : Soa.validHandle s h
  · rw [if_pos hv] at hp
    cases hA : Soa.allocate_node s v with
    | error e => rw [hA] at hp; exact absurd hp (by simp)
    | ok p =>
        obtain ⟨h1, s1⟩ := p
        rw [hA] at hp
        obtain ⟨hnil, hflen, hsz, hhd, htl, hvlen⟩ := allocate_ok_facts s v h1 s1 hA
        simp only [Except.ok.injEq, Prod.mk.injEq] at hp
        obtain ⟨-, hs'⟩ := hp
        subst hs'
        split <;> simp_all [length_setI]
  · rw [if_neg hv] at hp; exact absurd hp (by simp)

theorem insert_after_error_facts {T : Type} [Inhabited T] (s : Soa T) (h : NodeHandle) (v : T)
    (e : Err) (hp : Soa.insert_after s h v = .error e) :
    e = .InvalidHandle ∨ (e = .CapacityExhausted ∧ s.free_list_ = []) := by
  unfold Soa.insert_after at hp
  by_cases hv : Soa.validHandle s h
  · rw [if_pos hv] at hp
    cases hA : Soa.allocate_node s v with
    | error e1 =>
        rw [hA] at hp
        simp only [Except.error.injEq] at hp
        cases hp
        exact Or.inr (allocate_error_facts s v _ hA)
    | ok p => obtain ⟨h1, s1⟩ := p; rw [hA] at hp; exact absurd hp (by simp)
  · rw [if_neg hv] at hp
    simp only [Except.error.injEq] at hp
    exact Or.inl hp.symm

theorem pop_front_ok_facts {T : Type} [Inhabited T] (s : Soa T) (v : T) (s' : Soa T)
    (hp : Soa.pop_front s = .ok (v, s')) :
    s'.free_list_.length = s.free_list_.length + 1
    ∧ s'.size_ = (s.size_ + (SIZET_MOD - 1)) % SIZET_MOD
    ∧ s'.values_.length = s.values_.length := by
  unfold Soa.pop_front at hp
  by_cases h0 : s.head_ = -1
  · rw [if_pos h0] at hp; exact absurd hp (by simp)
  · rw [if_neg h0] at hp
    simp only [Except.ok.injEq, Prod.mk.injEq] at hp
    obtain ⟨-, hs'⟩ := hp
    subst hs'
    unfold Soa.release_node
    split <;> simp_all [length_setI]

theorem pop_front_error_facts {T : Type} [Inhabited T] (s : Soa T) (e : Err)
    (hp : Soa.pop_front s = .error e) : e = .Empty ∧ s.head_ = -1 := by
  unfold Soa.pop_front at hp
  by_cases h0 : s.head_ = -1
  · rw [if_pos h0] at hp
    simp only [Except.error.injEq] at hp
    exact ⟨hp.symm, h0⟩
  · rw [if_neg h0] at hp; exact absurd hp (by simp)

theorem erase_ok_facts {T : Type} [Inhabited T] (s : Soa T) (h : NodeHandle) (s' : Soa T)
    (hp : Soa.erase s h = .ok s') :
    s'.free_list_.length = s.free_list_.length + 1
    ∧ s'.size_ = (s.size_ + (SIZET_MOD - 1)) % SIZET_MOD
    ∧ s'.values_.length = s.values_.length := by
  unfold Soa.erase at hp
  by_cases hv : Soa.validHandle s h
  · rw [if_pos hv] at hp
    simp only [Except.ok.injEq] at hp
    subst hp
    unfold Soa.release_node
    split <;> split <;> simp_all [length_setI]
  · rw [if_neg hv] at hp; exact absurd hp (by simp)

theorem erase_error_facts {T : Type} [Inhabited T] (s : Soa T) (h : NodeHandle) (e : Err)
    (hp : Soa.erase s h = .error e) : e = .InvalidHandle ∧ Soa.validHandle s h = false := by
  unfold Soa.erase at hp
  by_cases hv : Soa.validHandle s h
  · rw [if_pos hv] at hp; exact absurd hp (by simp)
  · rw [if_neg hv] at hp
    simp only [Except.error.injEq] at hp
    exact ⟨hp.symm, by simpa using hv⟩

theorem erase_after_ok_facts {T : Type} [Inhabited T] (s : Soa T) (h : NodeHandle) (s' : Soa T)
    (hp : Soa.erase_after s h = .ok s') :
    s'.free_list_.length = s.free_list_.length + 1
    ∧ s'.size_ = (s.size_ + (SIZET_MOD - 1)) % SIZET_MOD
    ∧ s'.values_.length = s.values_.length := by
  unfold Soa.erase_after at hp
  by_cases hv : Soa.validHandle s h
  · rw [if_pos hv] at hp
    by_cases ht : nthI s.next_ (-1) h.index = -1
    · rw [if_pos ht] at hp; exact absurd hp (by simp)
    · rw [if_neg ht] at hp
      simp only [Except.ok.injEq] at hp
      subst hp
      unfold Soa.release_node
      split <;> simp_all [length_setI]
  · rw [if_neg hv] at hp; exact absurd hp (by simp)

theorem erase_after_error_facts {T : Type} [Inhabited T] (s : Soa T) (h : NodeHandle) (e : Err)
    (hp : Soa.erase_after s h = .error e) : e = .InvalidHandle ∨ e = .NoSuccessor := by
  unfold Soa.erase_after at hp
  by_cases hv : Soa.validHandle s h
  · rw [if_pos hv] at hp
    by_cases ht : nthI s.next_ (-1) h.index = -1
    · rw [if_pos ht] at hp
      simp only [Except.error.injEq] at hp
      exact Or.inr hp.symm
    · rw [if_neg ht] at hp; exact absurd hp (by simp)
  · rw [if_neg hv] at hp
    simp only [Except.error.injEq] at hp
    exact Or.inl hp.symm


theorem Out.isOk_not_isCE {T : Type} (r : Out T) (h : r.isOk = true) : r.isCE = false := by
  cases r <;> simp_all [Out.isOk, Out.isCE]

theorem step_insert_ok {T : Type} [Inhabited T] (s : Soa T) (op : Op T)
    (hio : op.isInsert = true) (hok : (Soa.step s op).1.isOk = true) :
    s.free_list_ ≠ [] ∧ (Soa.step s op).2.free_list_.length + 1 = s.free_list_.length
    ∧ (Soa.step s op).2.size_ = (s.size_ + 1) % SIZET_MOD
    ∧ (Soa.step s op).2.values_.length = s.values_.length := by
  cases op <;> simp_all [Op.isInsert]
  case pushFront v =>
    cases hp : Soa.push_front s v with
    | error e => simp [Soa.step, hp, Out.isOk] at hok
    | ok p =>
        obtain ⟨h1, s1⟩ := p
        have := push_front_ok_facts s v h1 s1 hp
        simp_all [Soa.step, hp]
  case pushBack v =>
    cases hp : Soa.push_back s v with
    | error e => simp [Soa.step, hp, Out.isOk] at hok
    | ok p =>
        obtain ⟨h1, s1⟩ := p
        have := push_back_ok_facts s v h1 s1 hp
        simp_all [Soa.step, hp]
  case insertAfter h v =>
    cases hp : Soa.insert_after s h v with
    | error e => simp [Soa.step, hp, Out.isOk] at hok
    | ok p =>
        obtain ⟨h1, s1⟩ := p
        have := insert_after_ok_facts s h v h1 s1 hp
        simp_all [Soa.step, hp]

theorem step_remove_ok {T : Type} [Inhabited T] (s : Soa T) (op : Op T)
    (hio : op.isRemove = true) (hok : (Soa.step s op).1.isOk = true) :
    (Soa.step s op).2.free_list_.length = s.free_list_.length + 1
    ∧ (Soa.step s op).2.size_ = (s.size_ + (SIZET_MOD - 1)) % SIZET_MOD
    ∧ (Soa.step s op).2.values_.length = s.values_.length := by
  cases op <;> simp_all [Op.isRemove]
  case eraseOp h =>
    cases hp : Soa.erase s h with
    | error e => simp [Soa.step, hp, Out.isOk] at hok
    | ok s1 =>
        have := erase_ok_facts s h s1 hp
        simp_all [Soa.step, hp]
  case eraseAfter h =>
    cases hp : Soa.erase_after s h with
    | error e => simp [Soa.step, hp, Out.isOk] at hok
    | ok s1 =>
        have := erase_after_ok_facts s h s1 hp
        simp_all [Soa.step, hp]
  case popFront =>
    cases hp : Soa.pop_front s with
    | error e => simp [Soa.step, hp, Out.isOk] at hok
    | ok p =>
        obtain ⟨v, s1⟩ := p
        have := pop_front_ok_facts s v s1 hp
        simp_all [Soa.step, hp]

theorem step_noop {T : Type} [Inhabited T] (s : Soa T) (op : Op T)
    (hx : (op.isInsert || op.isRemove) = false ∨ (Soa.step s op).1.isOk = false) :
    (Soa.step s op).2 = s := by
  cases op
  case pushFront v =>
    cases hp : Soa.push_front s v with
    | error e => simp [Soa.step, hp]
    | ok p => simp_all [Soa.step, hp, Op.isInsert, Out.isOk]
  case pushBack v =>
    cases hp : Soa.push_back s v with
    | error e => simp [Soa.step, hp]
    | ok p => simp_all [Soa.step, hp, Op.isInsert, Out.isOk]
  case insertAfter h v =>
    cases hp : Soa.insert_after s h v with
    | error e => simp [Soa.step, hp]
    | ok p => simp_all [Soa.step, hp, Op.isInsert, Out.isOk]
  case eraseOp h =>
    cases hp : Soa.erase s h with
    | error e => simp [Soa.step, hp]
    | ok s1 => simp_all [Soa.step, hp, Op.isRemove, Out.isOk]
  case eraseAfter h =>
    cases hp : Soa.erase_after s h with
    | error e => simp [Soa.step, hp]
    | ok s1 => simp_all [Soa.step, hp, Op.isRemove, Out.isOk]
  case popFront =>
    cases hp : Soa.pop_front s with
    | error e => simp [Soa.step, hp]
    | ok p => simp_all [Soa.step, hp, Op.isRemove, Out.isOk]
  case sizeQ => rfl
  case forEachQ => rfl

theorem step_CE_facts {T : Type} [Inhabited T] (s : Soa T) (op : Op T)
    (hce : (Soa.step s op).1.isCE = true) :
    op.isInsert = true ∧ s.free_list_ = [] := by
  cases op
  case pushFront v =>
    cases hp : Soa.push_front s v with
    | error e =>
        have := push_front_error_facts s v e hp
        simp_all [Soa.step, hp, Op.isInsert]
    | ok p => simp [Soa.step, hp, Out.isCE] at hce
  case pushBack v =>
    cases hp : Soa.push_back s v with
    | error e =>
        have := push_back_error_facts s v e hp
        simp_all [Soa.step, hp, Op.isInsert]
    | ok p => simp [Soa.step, hp, Out.isCE] at hce
  case insertAfter h v =>
    cases hp : Soa.insert_after s h v with
    | error e =>
        have := insert_after_error_facts s h v e hp
        rcases this with h1 | h1 <;> simp_all [Soa.step, hp, Op.isInsert, Out.isCE]
    | ok p => simp [Soa.step, hp, Out.isCE] at hce
  case eraseOp h =>
    cases hp : Soa.erase s h with
    | error e =>
        have := erase_error_facts s h e hp
        simp_all [Soa.step, hp, Out.isCE]
    | ok s1 => simp [Soa.step, hp, Out.isCE] at hce
  case eraseAfter h =>
    cases hp : Soa.erase_after s h with
    | error e =>
        have := erase_after_error_facts s h e hp
        rcases this with h1 | h1 <;> simp_all [Soa.step, hp, Out.isCE]
    | ok s1 => simp [Soa.step, hp, Out.isCE] at hce
  case popFront =>
    cases hp : Soa.pop_front s with
    | error e =>
        have := pop_front_error_facts s e hp
        simp_all [Soa.step, hp, Out.isCE]
    | ok p => simp [Soa.step, hp, Out.isCE] at hce
  case sizeQ => simp [Soa.step, Out.isCE] at hce
  case forEachQ => simp [Soa.step, Out.isCE] at hce


theorem run_wellBounded_facts {T : Type} [Inhabited T] (ops : List (Op T)) (s : Soa T)
    (hfs : s.free_list_.length + s.size_ = Soa.capacity s)
    (hcap : Soa.capacity s < SIZET_MOD)
    (hwb : Soa.wellBounded s ops = true) :
    ((Soa.run s ops).size_ : Int) = (s.size_ : Int) + Soa.net s ops
    ∧ (Soa.run s ops).free_list_.length + (Soa.run s ops).size_ = Soa.capacity s
    ∧ Soa.hitsCE s ops = false := by
  induction ops generalizing s with
  | nil => exact ⟨by simp [Soa.run, Soa.net], hfs, by simp [Soa.hitsCE]⟩
  | cons op ops ih =>
      rw [Soa.wellBounded] at hwb
      simp only [Bool.and_eq_true] at hwb
      obtain ⟨⟨hb1, hb2⟩, hwb2⟩ := hwb
      have hIns_bound : op.isInsert = true → s.size_ + 1 ≤ Soa.capacity s := by
        intro hio
        simp only [Bool.or_eq_true, Bool.not_eq_true', decide_eq_true_eq] at hb1
        rcases hb1 with hb | hb
        · rw [hio] at hb; cases hb
        · exact hb
      have hRem_bound : (op.isRemove && (Soa.step s op).1.isOk) = true → 1 ≤ s.size_ := by
        intro hro
        simp only [Bool.or_eq_true, Bool.not_eq_true', decide_eq_true_eq] at hb2
        rcases hb2 with hb | hb
        · rw [hro] at hb; cases hb
        · exact hb
      have hrun : Soa.run s (op :: ops) = Soa.run (Soa.step s op).2 ops := rfl
      have hnet : Soa.net s (op :: ops)
          = (if op.isInsert && (Soa.step s op).1.isOk then 1
             else if op.isRemove && (Soa.step s op).1.isOk then -1 else 0)
            + Soa.net (Soa.step s op).2 ops := rfl
      have hcel : Soa.hitsCE s (op :: ops)
          = ((Soa.step s op).1.isCE || Soa.hitsCE (Soa.step s op).2 ops) := rfl
      by_cases hI : (op.isInsert && (Soa.step s op).1.isOk) = true
      · have hI' := hI
        simp only [Bool.and_eq_true] at hI'
        obtain ⟨hio, hok⟩ := hI'
        obtain ⟨hnil, hflen, hsz, hvlen⟩ := step_insert_ok s op hio hok
        have hbnd := hIns_bound hio
        have hsz' : (Soa.step s op).2.size_ = s.size_ + 1 := by
          rw [hsz]; exact Nat.mod_eq_of_lt (by omega)
        have hcap' : Soa.capacity (Soa.step s op).2 = Soa.capacity s := by
          unfold Soa.capacity; rw [hvlen]
        have hfs' : (Soa.step s op).2.free_list_.length + (Soa.step s op).2.size_
            = Soa.capacity (Soa.step s op).2 := by rw [hcap', hsz']; omega
        obtain ⟨ih1, ih2, ih3⟩ := ih (Soa.step s op).2 hfs' (by rw [hcap']; exact hcap) hwb2
        refine ⟨?_, ?_, ?_⟩
        · rw [hrun, hnet, if_pos hI, ih1, hsz']; push_cast; ring
        · rw [hrun, ih2, hcap']
        · rw [hcel, Out.isOk_not_isCE _ hok, Bool.false_or]; exact ih3
      · by_cases hR : (op.isRemove && (Soa.step s op).1.isOk) = true
        · have hR' := hR
          simp only [Bool.and_eq_true] at hR'
          obtain ⟨hio, hok⟩ := hR'
          obtain ⟨hflen, hsz, hvlen⟩ := step_remove_ok s op hio hok
          have hbnd := hRem_bound hR
          have hsz' : (Soa.step s op).2.size_ = s.size_ - 1 := by
            rw [hsz]
            have h1 : s.size_ + (SIZET_MOD - 1) = (s.size_ - 1) + SIZET_MOD := by
              unfold SIZET_MOD; omega
            rw [h1, Nat.add_mod_right]
            exact Nat.mod_eq_of_lt (by omega)
          have hcap' : Soa.capacity (Soa.step s op).2 = Soa.capacity s := by
            unfold Soa.capacity; rw [hvlen]
          have hfs' : (Soa.step s op).2.free_list_.length + (Soa.step s op).2.size_
              = Soa.capacity (Soa.step s op).2 := by rw [hcap', hsz', hflen]; omega
          obtain ⟨ih1, ih2, ih3⟩ := ih (Soa.step s op).2 hfs' (by rw [hcap']; exact hcap) hwb2
          refine ⟨?_, ?_, ?_⟩
          · rw [hrun, hnet, if_neg hI, if_pos hR, ih1, hsz']
            have : ((s.size_ - 1 : Nat) : Int) = (s.size_ : Int) - 1 := by
              omega
            rw [this]; ring
          · rw [hrun, ih2, hcap']
          · rw [hcel, Out.isOk_not_isCE _ hok, Bool.false_or]; exact ih3
        · have hnoop : (Soa.step s op).2 = s := by
            apply step_noop
            by_cases hok : (Soa.step s op).1.isOk = true
            · left
              have h1 : op.isInsert = false := by
                cases hi : op.isInsert
                · rfl
                · exact absurd (by rw [hi, hok]; rfl) hI
              have h2 : op.isRemove = false := by
                cases hi : op.isRemove
                · rfl
                · exact absurd (by rw [hi, hok]; rfl) hR
              rw [h1, h2]; rfl
            · right; simpa using hok
          have hcef : (Soa.step s op).1.isCE = false := by
            cases hc : (Soa.step s op).1.isCE
            · rfl
            · obtain ⟨hio, hfree⟩ := step_CE_facts s op hc
              have hbnd := hIns_bound hio
              rw [hfree] at hfs
              simp at hfs
              omega
          rw [hnoop] at hwb2
          obtain ⟨ih1, ih2, ih3⟩ := ih s hfs hcap hwb2
          refine ⟨?_, ?_, ?_⟩
          · rw [hrun, hnet, if_neg hI, if_neg hR, hnoop, ih1]; ring
          · rw [hrun, hnoop]; exact ih2
          · rw [hcel, hcef, Bool.false_or, hnoop]; exact ih3


theorem init_facts (T : Type) [Inhabited T] (c : Nat) (s0 : Soa T)
    (h : Soa.init T c = .ok s0) :
    Soa.capacity s0 = c ∧ s0.size_ = 0 ∧ s0.free_list_.length = c := by
  unfold Soa.init at h
  by_cases hc : c = 0
  · rw [if_pos hc] at h; exact absurd h (by simp)
  · rw [if_neg hc] at h
    simp only [Except.ok.injEq] at h
    subst h
    exact ⟨by simp [Soa.capacity], rfl, by simp⟩

theorem step_values_len {T : Type} [Inhabited T] (s : Soa T) (op : Op T) :
    (Soa.step s op).2.values_.length = s.values_.length := by
  cases op
  case pushFront v =>
    cases hp : Soa.push_front s v with
    | error e => simp [Soa.step, hp]
    | ok p =>
        obtain ⟨h1, s1⟩ := p
        have := push_front_ok_facts s v h1 s1 hp
        simp [Soa.step, hp, this.2.2.2]
  case pushBack v =>
    cases hp : Soa.push_back s v with
    | error e => simp [Soa.step, hp]
    | ok p =>
        obtain ⟨h1, s1⟩ := p
        have := push_back_ok_facts s v h1 s1 hp
        simp [Soa.step, hp, this.2.2.2]
  case insertAfter h v =>
    cases hp : Soa.insert_after s h v with
    | error e => simp [Soa.step, hp]
    | ok p =>
        obtain ⟨h1, s1⟩ := p
        have := insert_after_ok_facts s h v h1 s1 hp
        simp [Soa.step, hp, this.2.2.2]
  case eraseOp h =>
    cases hp : Soa.erase s h with
    | error e => simp [Soa.step, hp]
    | ok s1 =>
        have := erase_ok_facts s h s1 hp
        simp [Soa.step, hp, this.2.2]
  case eraseAfter h =>
    cases hp : Soa.erase_after s h with
    | error e => simp [Soa.step, hp]
    | ok s1 =>
        have := erase_after_ok_facts s h s1 hp
        simp [Soa.step, hp, this.2.2]
  case popFront =>
    cases hp : Soa.pop_front s with
    | error e => simp [Soa.step, hp]
    | ok p =>
        obtain ⟨v, s1⟩ := p
        have := pop_front_ok_facts s v s1 hp
        simp [Soa.step, hp, this.2.2]
  case sizeQ => rfl
  case forEachQ => rfl

theorem run_capacity {T : Type} [Inhabited T] (ops : List (Op T)) (s : Soa T) :
    Soa.capacity (Soa.run s ops) = Soa.capacity s := by
  induction ops generalizing s with
  | nil => rfl
  | cons op ops ih =>
      have : Soa.run s (op :: ops) = Soa.run (Soa.step s op).2 ops := rfl
      rw [this, ih]
      unfold Soa.capacity
      exact step_values_len s op

/-- C3: along any run whose live count stays inside [0, capacity] (each
insertion attempted with room, each successful removal from a nonempty list),
size() ends at exactly the number of successful insertions minus successful
removals, no operation fails with CapacityExhausted, and (unconditionally)
allocate_node raises CapacityExhausted exactly when the free list is empty. -/
theorem C3_size_counting_and_capacity_exhausted (T : Type) [Inhabited T] (c : Nat)
    (s0 : Soa T) (hinit : Soa.init T c = .ok s0) (hcM : c < SIZET_MOD)
    (ops : List (Op T)) (hwb : Soa.wellBounded s0 ops = true) :
    ((Soa.run s0 ops).size_ : Int) = Soa.net s0 ops
    ∧ Soa.hitsCE s0 ops = false
    ∧ (∀ (s : Soa T) (v : T),
        Soa.allocate_node s v = .error .CapacityExhausted ↔ s.free_list_ = []) := by
  obtain ⟨hcap, hsz, hfl⟩ := init_facts T c s0 hinit
  obtain ⟨h1, h2, h3⟩ := run_wellBounded_facts ops s0
    (by rw [hcap, hsz, hfl]; omega) (by rw [hcap]; exact hcM) hwb
  refine ⟨?_, h3, fun s v => allocate_CE_iff s v⟩
  rw [h1, hsz]
  simp

/-- Witness for C3 at capacity 2 and a concrete run. -/
theorem C3_size_counting_and_capacity_exhausted_witness :
    ((Soa.run c3s0 [Op.pushBack 5, Op.pushBack 6, Op.popFront]).size_ : Int)
      = Soa.net c3s0 [Op.pushBack 5, Op.pushBack 6, Op.popFront]
    ∧ Soa.hitsCE c3s0 [Op.pushBack 5, Op.pushBack 6, Op.popFront] = false
    ∧ (∀ (s : Soa Nat) (v : Nat),
        Soa.allocate_node s v = .error .CapacityExhausted ↔ s.free_list_ = []) :=
  C3_size_counting_and_capacity_exhausted Nat 2 c3s0 (by decide) (by decide)
    [Op.pushBack 5, Op.pushBack 6, Op.popFront] (by decide)

/-- C6 as stated is false: immediately after construction size() is 0, not
positive; moreover the stale-handle double erase drives size_ to 2^64 - 1,
above the capacity, at a reachable state. -/
theorem C6_counterexample_fresh_list_and_underflow :
    Soa.init Nat 1 = .ok c6s0 ∧ c6s0.size_ = 0 ∧ Soa.capacity c6s0 = 1
    ∧ (Soa.run c6s0 [Op.pushFront 5, Op.eraseOp { index := 0, generation := 1 },
        Op.eraseOp { index := 0, generation := 1 }]).size_ = 2 ^ 64 - 1 := by
  refine ⟨by decide, by decide, by decide, by decide⟩

/-- C6 amended: capacity is fixed at construction and never changes along any
run, and 0 <= size <= capacity holds at every state reached by a run whose
live count stays inside [0, capacity] (the stale-handle double erase of the
counterexample is exactly what the bound excludes). -/
theorem C6_amended_capacity_fixed_and_size_bounded (T : Type) [Inhabited T] (c : Nat)
    (s0 : Soa T) (hinit : Soa.init T c = .ok s0) (hcM : c < SIZET_MOD)
    (ops : List (Op T)) :
    Soa.capacity (Soa.run s0 ops) = c
    ∧ (Soa.wellBounded s0 ops = true → (Soa.run s0 ops).size_ ≤ c) := by
  obtain ⟨hcap, hsz, hfl⟩ := init_facts T c s0 hinit
  constructor
  · rw [run_capacity, hcap]
  · intro hwb
    obtain ⟨h1, h2, h3⟩ := run_wellBounded_facts ops s0
      (by rw [hcap, hsz, hfl]; omega) (by rw [hcap]; exact hcM) hwb
    rw [hcap] at h2
    omega

/-- Witness for the amended C6 at capacity 2 and a concrete run. -/
theorem C6_amended_capacity_fixed_and_size_bounded_witness :
    Soa.capacity (Soa.run c3s0 [Op.pushBack 5, Op.popFront]) = 2
    ∧ (Soa.wellBounded c3s0 [Op.pushBack 5, Op.popFront] = true
        → (Soa.run c3s0 [Op.pushBack 5, Op.popFront]).size_ ≤ 2) :=
  C6_amended_capacity_fixed_and_size_bounded Nat 2 c3s0 (by decide) (by decide)
    [Op.pushBack 5, Op.popFront]



theorem allocate_ok_gens {T : Type} [Inhabited T] (s : Soa T) (v : T) (h' : NodeHandle)
    (s1 : Soa T) (hA : Soa.allocate_node s v = .ok (h', s1)) :
    s1.generations_ = setI s.generations_ h'.index
        ((nthI s.generations_ 0 h'.index + 1) % UINT32_MOD)
    ∧ h'.generation = (nthI s.generations_ 0 h'.index + 1) % UINT32_MOD := by
  unfold Soa.allocate_node at hA
  cases hL : s.free_list_.getLast? with
  | none => rw [hL] at hA; exact absurd hA (by simp)
  | some idx =>
      rw [hL] at hA
      simp only [Except.ok.injEq, Prod.mk.injEq] at hA
      obtain ⟨hh, hs1⟩ := hA
      subst hs1
      subst hh
      exact ⟨rfl, rfl⟩

theorem push_front_ok_gens {T : Type} [Inhabited T] (s : Soa T) (v : T) (h' : NodeHandle)
    (s' : Soa T) (hp : Soa.push_front s v = .ok (h', s')) :
    s'.generations_ = setI s.generations_ h'.index
        ((nthI s.generations_ 0 h'.index + 1) % UINT32_MOD) := by
  unfold Soa.push_front at hp
  cases hA : Soa.allocate_node s v with
  | error e => rw [hA] at hp; exact absurd hp (by simp)
  | ok p =>
      obtain ⟨h1, s1⟩ := p
      rw [hA] at hp
      simp only [Except.ok.injEq, Prod.mk.injEq] at hp
      obtain ⟨hh, hs'⟩ := hp
      subst hs'
      subst hh
      have := (allocate_ok_gens s v _ s1 hA).1
      split <;> simpa using this

theorem push_back_ok_gens {T : Type} [Inhabited T] (s : Soa T) (v : T) (h' : NodeHandle)
    (s' : Soa T) (hp : Soa.push_back s v = .ok (h', s')) :
    s'.generations_ = setI s.generations_ h'.index
        ((nthI s.generations_ 0 h'.index + 1) % UINT32_MOD) := by
  unfold Soa.push_back at hp
  cases hA : Soa.allocate_node s v with
  | error e => rw [hA] at hp; exact absurd hp (by simp)
  | ok p =>
      obtain ⟨h1, s1⟩ := p
      rw [hA] at hp
      simp only [Except.ok.injEq, Prod.mk.injEq] at hp
      obtain ⟨hh, hs'⟩ := hp
      subst hs'
      subst hh
      have := (allocate_ok_gens s v _ s1 hA).1
      split <;> simpa using this

theorem insert_after_ok_gens {T : Type} [Inhabited T] (s : Soa T) (h : NodeHandle) (v : T)
    (h' : NodeHandle) (s' : Soa T) (hp : Soa.insert_after s h v = .ok (h', s')) :
    s'.generations_ = setI s.generations_ h'.index
        ((nthI s.generations_ 0 h'.index + 1) % UINT32_MOD) := by
  unfold Soa.insert_after at hp
  by_cases hv : Soa.validHandle s h
  · rw [if_pos hv] at hp
    cases hA : Soa.allocate_node s v with
    | error e => rw [hA] at hp; exact absurd hp (by simp)
    | ok p =>
        obtain ⟨h1, s1⟩ := p
        rw [hA] at hp
        simp only [Except.ok.injEq, Prod.mk.injEq] at hp
        obtain ⟨hh, hs'⟩ := hp
        subst hs'
        subst hh
        have := (allocate_ok_gens s v _ s1 hA).1
        split <;> simpa using this
  · rw [if_neg hv] at hp; exact absurd hp (by simp)

theorem pop_front_ok_gens {T : Type} [Inhabited T] (s : Soa T) (v : T) (s' : Soa T)
    (hp : Soa.pop_front s = .ok (v, s')) : s'.generations_ = s.generations_ := by
  unfold Soa.pop_front at hp
  by_cases h0 : s.head_ = -1
  · rw [if_pos h0] at hp; exact absurd hp (by simp)
  · rw [if_neg h0] at hp
    simp only [Except.ok.injEq, Prod.mk.injEq] at hp
    obtain ⟨-, hs'⟩ := hp
    subst hs'
    unfold Soa.release_node
    split <;> rfl

theorem erase_ok_gens {T : Type} [Inhabited T] (s : Soa T) (h : NodeHandle) (s' : Soa T)
    (hp : Soa.erase s h = .ok s') : s'.generations_ = s.generations_ := by
  unfold Soa.erase at hp
  by_cases hv : Soa.validHandle s h
  · rw [if_pos hv] at hp
    simp only [Except.ok.injEq] at hp
    subst hp
    unfold Soa.release_node
    split <;> split <;> rfl
  · rw [if_neg hv] at hp; exact absurd hp (by simp)

theorem erase_after_ok_gens {T : Type} [Inhabited T] (s : Soa T) (h : NodeHandle) (s' : Soa T)
    (hp : Soa.erase_after s h = .ok s') : s'.generations_ = s.generations_ := by
  unfold Soa.erase_after at hp
  by_cases hv : Soa.validHandle s h
  · rw [if_pos hv] at hp
    by_cases ht : nthI s.next_ (-1) h.index = -1
    · rw [if_pos ht] at hp; exact absurd hp (by simp)
    · rw [if_neg ht] at hp
      simp only [Except.ok.injEq] at hp
      subst hp
      unfold Soa.release_node
      split <;> rfl
  · rw [if_neg hv] at hp; exact absurd hp (by simp)

theorem step_gens {T : Type} [Inhabited T] (s : Soa T) (op : Op T) :
    (Soa.step s op).2.generations_ = s.generations_
    ∨ ∃ j, (Soa.step s op).2.generations_
        = setI s.generations_ j ((nthI s.generations_ 0 j + 1) % UINT32_MOD) := by
  cases op
  case pushFront v =>
    cases hp : Soa.push_front s v with
    | error e => left; simp [Soa.step, hp]
    | ok p =>
        obtain ⟨h1, s1⟩ := p
        right
        exact ⟨h1.index, by simpa [Soa.step, hp] using push_front_ok_gens s v h1 s1 hp⟩
  case pushBack v =>
    cases hp : Soa.push_back s v with
    | error e => left; simp [Soa.step, hp]
    | ok p =>
        obtain ⟨h1, s1⟩ := p
        right
        exact ⟨h1.index, by simpa [Soa.step, hp] using push_back_ok_gens s v h1 s1 hp⟩
  case insertAfter h v =>
    cases hp : Soa.insert_after s h v with
    | error e => left; simp [Soa.step, hp]
    | ok p =>
        obtain ⟨h1, s1⟩ := p
        right
        exact ⟨h1.index, by simpa [Soa.step, hp] using insert_after_ok_gens s h v h1 s1 hp⟩
  case eraseOp h =>
    cases hp : Soa.erase s h with
    | error e => left; simp [Soa.step, hp]
    | ok s1 => left; simpa [Soa.step, hp] using erase_ok_gens s h s1 hp
  case eraseAfter h =>
    cases hp : Soa.erase_after s h with
    | error e => left; simp [Soa.step, hp]
    | ok s1 => left; simpa [Soa.step, hp] using erase_after_ok_gens s h s1 hp
  case popFront =>
    cases hp : Soa.pop_front s with
    | error e => left; simp [Soa.step, hp]
    | ok p =>
        obtain ⟨v, s1⟩ := p
        left
        simpa [Soa.step, hp] using pop_front_ok_gens s v s1 hp
  case sizeQ => left; rfl
  case forEachQ => left; rfl


theorem nthI_setI_gen (l : List Nat) (i j : Int) :
    nthI (setI l j ((nthI l 0 j + 1) % UINT32_MOD)) 0 i = nthI l 0 i
    ∨ nthI (setI l j ((nthI l 0 j + 1) % UINT32_MOD)) 0 i
        = (nthI l 0 i + 1) % UINT32_MOD := by
  by_cases hij : j = i
  · subst hij
    by_cases h0 : 0 ≤ j
    · by_cases hl : j.toNat < l.length
      · right; exact nthI_setI_self l 0 j _ h0 hl
      · left
        unfold setI
        rw [if_pos h0, List.set_eq_of_length_le (by omega)]
    · left
      unfold setI
      rw [if_neg h0]
  · left; exact nthI_setI_ne l 0 j i _ hij

theorem step_generation_mono {T : Type} [Inhabited T] (s : Soa T) (op : Op T) (i : Int)
    (hlt : nthI s.generations_ 0 i + 1 < UINT32_MOD) :
    nthI s.generations_ 0 i ≤ nthI (Soa.step s op).2.generations_ 0 i := by
  rcases step_gens s op with h | ⟨j, h⟩
  · rw [h]
  · rw [h]
    rcases nthI_setI_gen s.generations_ i j with h2 | h2
    · rw [h2]
    · rw [h2, Nat.mod_eq_of_lt hlt]
      omega

theorem run_generation_mono {T : Type} [Inhabited T] (ops : List (Op T)) (s : Soa T) (i : Int)
    (hw : ∀ k, k < ops.length
            → nthI (Soa.run s (ops.take k)).generations_ 0 i + 1 < UINT32_MOD) :
    nthI s.generations_ 0 i ≤ nthI (Soa.run s ops).generations_ 0 i := by
  induction ops generalizing s with
  | nil => exact le_refl _
  | cons op ops ih =>
      have h0 := hw 0 (by simp)
      have hstep := step_generation_mono s op i (by simpa [Soa.run] using h0)
      have hrest := ih (Soa.step s op).2 (fun k hk => by
        have hk1 := hw (k + 1) (by simpa using Nat.succ_lt_succ hk)
        simpa [List.take_succ_cons, Soa.run] using hk1)
      have hrun : Soa.run s (op :: ops) = Soa.run (Soa.step s op).2 ops := rfl
      rw [hrun]
      exact le_trans hstep hrest

theorem run_append {T : Type} [Inhabited T] (l1 l2 : List (Op T)) (s : Soa T) :
    Soa.run s (l1 ++ l2) = Soa.run (Soa.run s l1) l2 := by
  induction l1 generalizing s with
  | nil => rfl
  | cons op l1 ih => exact ih (Soa.step s op).2

theorem cyc_step (g : Nat) :
    Soa.run (cycState g) [Op.pushFront 0, Op.popFront]
      = cycState ((g + 1) % UINT32_MOD) := by
  have hpush : Soa.push_front (cycState g) 0
      = .ok ({ index := 0, generation := (g + 1) % UINT32_MOD },
             { values_ := [0], next_ := [-1], prev_ := [-1],
               generations_ := [(g + 1) % UINT32_MOD], free_list_ := [],
               head_ := 0, tail_ := 0, size_ := (0 + 1) % SIZET_MOD }) := rfl
  have hpop : Soa.pop_front
      ({ values_ := [0], next_ := [-1], prev_ := [-1],
         generations_ := [(g + 1) % UINT32_MOD], free_list_ := [],
         head_ := 0, tail_ := 0, size_ := (0 + 1) % SIZET_MOD } : Soa Nat)
      = .ok (0,
        { values_ := [0], next_ := [-1], prev_ := [-1],
          generations_ := [(g + 1) % UINT32_MOD], free_list_ := [0],
          head_ := -1, tail_ := -1,
          size_ := ((0 + 1) % SIZET_MOD + (SIZET_MOD - 1)) % SIZET_MOD }) := rfl
  show Soa.run (Soa.step (cycState g) (Op.pushFront 0)).2 [Op.popFront] = _
  simp only [Soa.step, hpush, hpop, Soa.run]
  simp only [cycState, Soa.mk.injEq, and_true, true_and]
  decide

theorem pushPop_run (n : Nat) : ∀ g : Nat, g < UINT32_MOD →
    Soa.run (cycState g) (pushPopOps n) = cycState ((g + n) % UINT32_MOD) := by
  induction n with
  | zero =>
      intro g hg
      simp [pushPopOps, Soa.run, Nat.mod_eq_of_lt hg]
  | succ n ih =>
      intro g hg
      have hsplit : pushPopOps (n + 1)
          = [Op.pushFront 0, Op.popFront] ++ pushPopOps n := by
        unfold pushPopOps
        rw [List.replicate_succ, List.flatten_cons]
      rw [hsplit, run_append, cyc_step]
      rw [ih ((g + 1) % UINT32_MOD) (Nat.mod_lt _ (by unfold UINT32_MOD; omega))]
      rw [Nat.mod_add_mod]
      ring_nf

/-- C4 fails on long runs: the generation is a uint32, so after 2^32
allocations of the same slot it returns to 0: after one push-pop cycle the
slot-0 generation is 1, after 2^32 cycles (of which the single cycle is a
prefix) it is 0 again, so per-slot generations are not monotone over every
operation sequence. -/
theorem C4_counterexample_generation_wraparound :
    Soa.init Nat 1 = .ok (cycState 0)
    ∧ pushPopOps UINT32_MOD = pushPopOps 1 ++ pushPopOps (UINT32_MOD - 1)
    ∧ nthI (Soa.run (cycState 0) (pushPopOps 1)).generations_ 0 0 = 1
    ∧ nthI (Soa.run (cycState 0) (pushPopOps UINT32_MOD)).generations_ 0 0 = 0 := by
  refine ⟨by decide, ?_, by decide, ?_⟩
  · have h1 : UINT32_MOD = 1 + (UINT32_MOD - 1) := by unfold UINT32_MOD; omega
    unfold pushPopOps
    conv_lhs => rw [h1]
    rw [List.replicate_add, List.flatten_append]
  · rw [pushPop_run UINT32_MOD 0 (by unfold UINT32_MOD; omega)]
    rw [show (0 + UINT32_MOD) % UINT32_MOD = 0 from by simp [Nat.mod_self]]
    decide

/-- C4 amended: generations start at 0 at construction; release_node never
touches them; allocate_node replaces exactly the allocated slot's generation
by its uint32 increment (and stamps the same value into the handle); and a
slot's generation is non-decreasing along every run during which it never
stands at the wraparound value 2^32 - 1. -/
theorem C4_amended_generation_discipline (T : Type) [Inhabited T] :
    (∀ (c : Nat) (s0 : Soa T), Soa.init T c = .ok s0
       → ∀ i : Int, nthI s0.generations_ 0 i = 0)
    ∧ (∀ (s : Soa T) (idx : Int), (Soa.release_node s idx).generations_ = s.generations_)
    ∧ (∀ (s : Soa T) (v : T) (h' : NodeHandle) (s1 : Soa T),
        Soa.allocate_node s v = .ok (h', s1)
          → s1.generations_ = setI s.generations_ h'.index
                ((nthI s.generations_ 0 h'.index + 1) % UINT32_MOD)
            ∧ h'.generation = (nthI s.generations_ 0 h'.index + 1) % UINT32_MOD)
    ∧ (∀ (s : Soa T) (ops : List (Op T)) (i : Int),
        (∀ k, k < ops.length
            → nthI (Soa.run s (ops.take k)).generations_ 0 i + 1 < UINT32_MOD)
          → nthI s.generations_ 0 i ≤ nthI (Soa.run s ops).generations_ 0 i) := by
  refine ⟨?_, ?_, ?_, ?_⟩
  · intro c s0 h i
    unfold Soa.init at h
    by_cases hc : c = 0
    · rw [if_pos hc] at h; exact absurd h (by simp)
    · rw [if_neg hc] at h
      simp only [Except.ok.injEq] at h
      subst h
      unfold nthI
      split
      · rw [List.getD_eq_getElem?_getD, List.getElem?_replicate]
        split <;> rfl
      · rfl
  · intro s idx
    rfl
  · intro s v h' s1 hA
    exact allocate_ok_gens s v h' s1 hA
  · intro s ops i hw
    exact run_generation_mono ops s i hw

/-- Witness for the amended C4 at concrete inputs. -/
theorem C4_amended_generation_discipline_witness :
    nthI c3s0.generations_ 0 0 = 0
    ∧ nthI c3s0.generations_ 0 0
        ≤ nthI (Soa.run c3s0 [Op.pushBack 1]).generations_ 0 0 :=
  ⟨(C4_amended_generation_discipline Nat).1 2 c3s0 (by decide) 0,
   (C4_amended_generation_discipline Nat).2.2.2 c3s0 [Op.pushBack 1] 0 (by decide)⟩



theorem nthI_replicate (c : Nat) (a : α) (i : Int) : nthI (List.replicate c a) a i = a := by
  unfold nthI
  split
  · rw [List.getD_eq_getElem?_getD, List.getElem?_replicate]
    split <;> rfl
  · rfl

theorem dropLast_reverse (l : List α) : l.reverse.dropLast = l.tail.reverse := by
  cases l with
  | nil => rfl
  | cons a l => simp [List.reverse_cons]

theorem init_fields (T : Type) [Inhabited T] (c : Nat) (s0 : Soa T)
    (h : Soa.init T c = .ok s0) :
    s0.values_ = List.replicate c default ∧ s0.next_ = List.replicate c (-1)
    ∧ s0.prev_ = List.replicate c (-1) ∧ s0.generations_ = List.replicate c 0
    ∧ s0.free_list_ = (List.range c).reverse.map Int.ofNat
    ∧ s0.head_ = -1 ∧ s0.tail_ = -1 ∧ s0.size_ = 0 := by
  unfold Soa.init at h
  by_cases hc : c = 0
  · rw [if_pos hc] at h; exact absurd h (by simp)
  · rw [if_neg hc] at h
    simp only [Except.ok.injEq] at h
    subst h
    exact ⟨rfl, rfl, rfl, rfl, rfl, rfl, rfl, rfl⟩

theorem run_pushBack_inv {T : Type} [Inhabited T] (c : Nat) (s0 : Soa T)
    (hinit : Soa.init T c = .ok s0) (vs : List T) (hn : vs.length ≤ c) :
    (Soa.run s0 (pushBackOps vs)).values_.length = c
    ∧ (Soa.run s0 (pushBackOps vs)).next_.length = c
    ∧ (∀ i : Nat, i < vs.length
        → nthI (Soa.run s0 (pushBackOps vs)).values_ default (i : Int) = vs.getD i default)
    ∧ (∀ i : Nat, i < c
        → nthI (Soa.run s0 (pushBackOps vs)).next_ (-1) (i : Int)
            = if i + 1 < vs.length then ((i + 1 : Nat) : Int) else -1)
    ∧ (Soa.run s0 (pushBackOps vs)).head_ = (if vs.length = 0 then -1 else 0)
    ∧ (Soa.run s0 (pushBackOps vs)).tail_ = (vs.length : Int) - 1
    ∧ (Soa.run s0 (pushBackOps vs)).free_list_
        = (((List.range c).drop vs.length).map Int.ofNat).reverse := by
  induction vs using List.reverseRecOn with
  | nil =>
      obtain ⟨hv, hx, hp, hg, hf, hh, ht, hs⟩ := init_fields T c s0 hinit
      have hrun : Soa.run s0 (pushBackOps ([] : List T)) = s0 := rfl
      rw [hrun]
      refine ⟨by rw [hv]; simp, by rw [hx]; simp, fun i hi => absurd hi (by simp),
              fun i hi => by rw [hx, nthI_replicate]; simp,
              by rw [hh]; simp, by rw [ht]; simp, ?_⟩
      rw [hf]
      simp only [List.length_nil, List.drop_zero, List.map_reverse]
  | append_singleton vs v ih =>
      have hn1 : vs.length + 1 ≤ c := by simpa using hn
      obtain ⟨ih1, ih2, ih3, ih4, ih5, ih6, ih7⟩ := ih (by omega)
      have hnc : vs.length < c := by omega
      have hsplit : pushBackOps (vs ++ [v]) = pushBackOps vs ++ [Op.pushBack v] := by
        simp [pushBackOps]
      rw [hsplit, run_append]
      set s := Soa.run s0 (pushBackOps vs) with hs
      have hfree : s.free_list_.getLast? = some ((vs.length : Nat) : Int) := by
        rw [ih7, List.getLast?_reverse, List.head?_map,
            List.drop_eq_getElem_cons (by simpa using hnc)]
        simp
      have hrun1 : Soa.run s [Op.pushBack v] = (Soa.step s (Op.pushBack v)).2 := rfl
      rw [hrun1]
      simp only [Soa.step, Soa.push_back, Soa.allocate_node, hfree]
      by_cases h0 : vs.length = 0
      · have hvs : vs = [] := List.eq_nil_of_length_eq_zero h0
        subst hvs
        rw [if_neg (by rw [ih6]; simp)]
        simp only [List.length_nil, List.nil_append, List.length_cons, Nat.zero_add,
          Nat.cast_zero]
        refine ⟨by simp [length_setI, ih1], by simp [length_setI, ih2], ?_, ?_, ?_, ?_, ?_⟩
        · intro i hi
          have hi0 : i = 0 := by omega
          subst hi0
          rw [Nat.cast_zero, nthI_setI_self _ _ _ _ (by omega) (by rw [ih1]; omega)]
          rfl
        · intro i hi
          by_cases hieq : i = 0
          · subst hieq
            rw [Nat.cast_zero,
                nthI_setI_self _ _ _ _ (by omega) (by rw [length_setI, ih2]; omega)]
            simp
          · have hne : ((0 : Nat) : Int) ≠ (i : Int) := by omega
            rw [Nat.cast_zero] at hne
            rw [nthI_setI_ne _ _ _ _ _ hne, nthI_setI_ne _ _ _ _ _ hne, ih4 i hi]
            simp only [List.length_nil]
            rw [if_neg (by omega), if_neg (by omega)]
        · simp
        · simp
        · rw [ih7, dropLast_reverse]
          congr 1
          rw [← List.map_tail, List.tail_drop]
          simp
      · rw [if_pos (show s.tail_ ≠ -1 by rw [ih6]; omega)]
        simp only [List.length_append, List.length_cons, List.length_nil, Nat.zero_add]
        refine ⟨by simp [length_setI, ih1], by simp [length_setI, ih2], ?_, ?_, ?_, ?_, ?_⟩
        · intro i hi
          by_cases hieq : i = vs.length
          · subst hieq
            rw [nthI_setI_self _ _ _ _ (by omega) (by rw [ih1]; omega)]
            rw [List.getD_eq_getElem?_getD, List.getElem?_concat_length vs v]
            rfl
          · have hilt : i < vs.length := by omega
            have hne : ((vs.length : Nat) : Int) ≠ (i : Int) := by omega
            rw [nthI_setI_ne _ _ _ _ _ hne, ih3 i hilt,
                List.getD_append _ _ _ _ hilt]
        · intro i hi
          by_cases hit : i = vs.length - 1
          · subst hit
            rw [ih6]
            have hcast : (vs.length : Int) - 1 = ((vs.length - 1 : Nat) : Int) := by omega
            rw [hcast, nthI_setI_self _ _ _ _ (by omega)
                  (by rw [length_setI, length_setI, ih2]; omega)]
            rw [if_pos (by omega)]
            omega
          · by_cases hieq : i = vs.length
            · subst hieq
              rw [ih6]
              have hne : (vs.length : Int) - 1 ≠ ((vs.length : Nat) : Int) := by omega
              rw [nthI_setI_ne _ _ _ _ _ hne,
                  nthI_setI_self _ _ _ _ (by omega) (by rw [length_setI, ih2]; omega)]
              rw [if_neg (by omega)]
            · rw [ih6]
              have hne1 : (vs.length : Int) - 1 ≠ (i : Int) := by omega
              have hne2 : ((vs.length : Nat) : Int) ≠ (i : Int) := by omega
              rw [nthI_setI_ne _ _ _ _ _ hne1, nthI_setI_ne _ _ _ _ _ hne2,
                  nthI_setI_ne _ _ _ _ _ hne2, ih4 i hi]
              by_cases hlt : i + 1 < vs.length
              · rw [if_pos hlt, if_pos (by omega)]
              · rw [if_neg hlt, if_neg (by omega)]
        · rw [ih5, if_neg h0]
          simp [h0]
        · simp
        · rw [ih7, dropLast_reverse]
          congr 1
          rw [← List.map_tail, List.tail_drop]


theorem run_pushFront_inv {T : Type} [Inhabited T] (c : Nat) (s0 : Soa T)
    (hinit : Soa.init T c = .ok s0) (vs : List T) (hn : vs.length ≤ c) :
    (Soa.run s0 (pushFrontOps vs)).values_.length = c
    ∧ (Soa.run s0 (pushFrontOps vs)).next_.length = c
    ∧ (∀ i : Nat, i < vs.length
        → nthI (Soa.run s0 (pushFrontOps vs)).values_ default (i : Int) = vs.getD i default)
    ∧ (∀ i : Nat, i < c
        → nthI (Soa.run s0 (pushFrontOps vs)).next_ (-1) (i : Int)
            = if i < vs.length then (i : Int) - 1 else -1)
    ∧ (Soa.run s0 (pushFrontOps vs)).head_ = (vs.length : Int) - 1
    ∧ (Soa.run s0 (pushFrontOps vs)).free_list_
        = (((List.range c).drop vs.length).map Int.ofNat).reverse := by
  induction vs using List.reverseRecOn with
  | nil =>
      obtain ⟨hv, hx, hp, hg, hf, hh, ht, hs⟩ := init_fields T c s0 hinit
      have hrun : Soa.run s0 (pushFrontOps ([] : List T)) = s0 := rfl
      rw [hrun]
      refine ⟨by rw [hv]; simp, by rw [hx]; simp, fun i hi => absurd hi (by simp),
              fun i hi => by rw [hx, nthI_replicate]; simp,
              by rw [hh]; simp, ?_⟩
      rw [hf]
      simp only [List.length_nil, List.drop_zero, List.map_reverse]
  | append_singleton vs v ih =>
      have hn1 : vs.length + 1 ≤ c := by simpa using hn
      obtain ⟨ih1, ih2, ih3, ih4, ih5, ih6⟩ := ih (by omega)
      have hnc : vs.length < c := by omega
      have hsplit : pushFrontOps (vs ++ [v]) = pushFrontOps vs ++ [Op.pushFront v] := by
        simp [pushFrontOps]
      rw [hsplit, run_append]
      set s := Soa.run s0 (pushFrontOps vs) with hs
      have hfree : s.free_list_.getLast? = some ((vs.length : Nat) : Int) := by
        rw [ih6, List.getLast?_reverse, List.head?_map,
            List.drop_eq_getElem_cons (by simpa using hnc)]
        simp
      have hrun1 : Soa.run s [Op.pushFront v] = (Soa.step s (Op.pushFront v)).2 := rfl
      rw [hrun1]
      simp only [Soa.step, Soa.push_front, Soa.allocate_node, hfree]
      have hm1 : (setI s.values_ ((vs.length : Nat) : Int) v).length = c := by
        rw [length_setI, ih1]
      have hm2 : (setI (setI s.next_ ((vs.length : Nat) : Int) (-1))
          ((vs.length : Nat) : Int) s.head_).length = c := by
        rw [length_setI, length_setI, ih2]
      have hm3 : ∀ i : Nat, i < (vs ++ [v]).length
          → nthI (setI s.values_ ((vs.length : Nat) : Int) v) default (i : Int)
              = (vs ++ [v]).getD i default := by
        intro i hi
        simp only [List.length_append, List.length_cons, List.length_nil,
          Nat.zero_add] at hi
        by_cases hieq : i = vs.length
        · subst hieq
          rw [nthI_setI_self _ _ _ _ (by omega) (by rw [ih1]; omega)]
          rw [List.getD_eq_getElem?_getD, List.getElem?_concat_length vs v]
          rfl
        · have hilt : i < vs.length := by omega
          have hne : ((vs.length : Nat) : Int) ≠ (i : Int) := by omega
          rw [nthI_setI_ne _ _ _ _ _ hne, ih3 i hilt,
              List.getD_append _ _ _ _ hilt]
      have hm4 : ∀ i : Nat, i < c
          → nthI (setI (setI s.next_ ((vs.length : Nat) : Int) (-1))
                ((vs.length : Nat) : Int) s.head_) (-1) (i : Int)
              = if i < (vs ++ [v]).length then (i : Int) - 1 else -1 := by
        intro i hi
        simp only [List.length_append, List.length_cons, List.length_nil, Nat.zero_add]
        by_cases hieq : i = vs.length
        · subst hieq
          rw [nthI_setI_self _ _ _ _ (by omega) (by rw [length_setI, ih2]; omega), ih5]
          rw [if_pos (by omega)]
        · have hne : ((vs.length : Nat) : Int) ≠ (i : Int) := by omega
          rw [nthI_setI_ne _ _ _ _ _ hne, nthI_setI_ne _ _ _ _ _ hne, ih4 i hi]
          by_cases hlt : i < vs.length
          · rw [if_pos hlt, if_pos (by omega)]
          · rw [if_neg hlt, if_neg (by omega)]
      have hm5 : ((vs.length : Nat) : Int) = ((vs ++ [v]).length : Int) - 1 := by
        simp only [List.length_append, List.length_cons, List.length_nil, Nat.zero_add]
        push_cast
        ring
      have hm6 : s.free_list_.dropLast
          = (((List.range c).drop (vs ++ [v]).length).map Int.ofNat).reverse := by
        rw [ih6, dropLast_reverse]
        congr 1
        rw [← List.map_tail, List.tail_drop]
        simp only [List.length_append, List.length_cons, List.length_nil, Nat.zero_add]
      by_cases h0 : vs.length = 0
      · rw [if_neg (by rw [ih5, h0]; simp)]
        exact ⟨hm1, hm2, hm3, hm4, hm5, hm6⟩
      · rw [if_pos (show s.head_ ≠ -1 by rw [ih5]; omega)]
        exact ⟨hm1, hm2, hm3, hm4, hm5, hm6⟩

theorem traverseFrom_neg1 {T : Type} [Inhabited T] (s : Soa T) (fuel : Nat) :
    Soa.traverseFrom s fuel (-1) = [] := by
  cases fuel <;> rfl

theorem traverse_bk {T : Type} [Inhabited T] (s : Soa T) (vs : List T) (c : Nat)
    (hn : vs.length ≤ c)
    (h3 : ∀ i : Nat, i < vs.length → nthI s.values_ default (i : Int) = vs.getD i default)
    (h4 : ∀ i : Nat, i < c
        → nthI s.next_ (-1) (i : Int)
            = if i + 1 < vs.length then ((i + 1 : Nat) : Int) else -1) :
    ∀ (fuel : Nat) (j : Nat), j < vs.length → vs.length - j ≤ fuel
      → (Soa.traverseFrom s fuel (j : Int)).map Prod.fst = vs.drop j := by
  intro fuel
  induction fuel with
  | zero => intro j hj hf; omega
  | succ f ihf =>
      intro j hj hf
      rw [Soa.traverseFrom, if_neg (by omega)]
      rw [h4 j (by omega), h3 j hj]
      rw [List.drop_eq_getElem_cons hj, ← List.getD_eq_getElem vs default hj]
      by_cases hj1 : j + 1 < vs.length
      · rw [if_pos hj1]
        simp only [List.map_cons]
        rw [ihf (j + 1) hj1 (by omega)]
      · rw [if_neg hj1, traverseFrom_neg1]
        have : vs.drop (j + 1) = [] := List.drop_eq_nil_of_le (by omega)
        rw [this]
        rfl

theorem traverse_fr {T : Type} [Inhabited T] (s : Soa T) (vs : List T) (c : Nat)
    (hn : vs.length ≤ c)
    (h3 : ∀ i : Nat, i < vs.length → nthI s.values_ default (i : Int) = vs.getD i default)
    (h4 : ∀ i : Nat, i < c
        → nthI s.next_ (-1) (i : Int) = if i < vs.length then (i : Int) - 1 else -1) :
    ∀ (fuel : Nat) (j : Nat), j < vs.length → j + 1 ≤ fuel
      → (Soa.traverseFrom s fuel (j : Int)).map Prod.fst = (vs.take (j + 1)).reverse := by
  intro fuel
  induction fuel with
  | zero => intro j hj hf; omega
  | succ f ihf =>
      intro j hj hf
      rw [Soa.traverseFrom, if_neg (by omega)]
      rw [h4 j (by omega), if_pos hj, h3 j hj]
      have htake : vs.take (j + 1) = vs.take j ++ [vs.getD j default] := by
        rw [List.take_succ, List.getElem?_eq_getElem hj]
        rw [← List.getD_eq_getElem vs default hj]
        rfl
      rw [htake, List.reverse_append]
      by_cases hj0 : j = 0
      · subst hj0
        rw [show ((0 : Nat) : Int) - 1 = -1 from by decide, traverseFrom_neg1]
        simp
      · rw [show ((j : Nat) : Int) - 1 = ((j - 1 : Nat) : Int) from by omega]
        rw [List.map_cons, ihf (j - 1) (by omega) (by omega)]
        rw [show (j - 1) + 1 = j from by omega]
        simp

theorem C7_push_sequences_iteration_order (T : Type) [Inhabited T] (c : Nat)
    (s0 : Soa T) (hinit : Soa.init T c = .ok s0) (vs : List T) (hn : vs.length ≤ c) :
    (Soa.forEachOut (Soa.run s0 (pushBackOps vs))).map Prod.fst = vs
    ∧ (Soa.forEachOut (Soa.run s0 (pushFrontOps vs))).map Prod.fst = vs.reverse := by
  constructor
  · obtain ⟨h1, h2, h3, h4, h5, h6, h7⟩ := run_pushBack_inv c s0 hinit vs hn
    unfold Soa.forEachOut Soa.capacity
    by_cases h0 : vs.length = 0
    · rw [h5, if_pos h0, traverseFrom_neg1]
      rw [List.eq_nil_of_length_eq_zero h0]
      rfl
    · rw [h5, if_neg h0, show (0 : Int) = ((0 : Nat) : Int) from rfl]
      rw [traverse_bk (Soa.run s0 (pushBackOps vs)) vs c hn h3 h4 _ 0 (by omega)
            (by rw [h1]; omega)]
      exact List.drop_zero vs
  · obtain ⟨h1, h2, h3, h4, h5, h6⟩ := run_pushFront_inv c s0 hinit vs hn
    unfold Soa.forEachOut Soa.capacity
    by_cases h0 : vs.length = 0
    · rw [h5, show ((vs.length : Int) - 1) = -1 from by omega, traverseFrom_neg1]
      rw [List.eq_nil_of_length_eq_zero h0]
      rfl
    · rw [h5, show ((vs.length : Int) - 1) = ((vs.length - 1 : Nat) : Int) from by omega]
      rw [traverse_fr (Soa.run s0 (pushFrontOps vs)) vs c hn h3 h4 _ (vs.length - 1)
            (by omega) (by rw [h1]; omega)]
      rw [show (vs.length - 1) + 1 = vs.length from by omega, List.take_length]

/-- Witness for C7 on a concrete capacity and value list. -/
theorem C7_push_sequences_iteration_order_witness :
    (Soa.forEachOut (Soa.run c7s0 (pushBackOps [10, 20, 30]))).map Prod.fst = [10, 20, 30]
    ∧ (Soa.forEachOut (Soa.run c7s0 (pushFrontOps [10, 20, 30]))).map Prod.fst
        = [10, 20, 30].reverse :=
  C7_push_sequences_iteration_order Nat 3 c7s0 (by decide) [10, 20, 30] (by decide)



theorem chainB_nil (nx : List Int) (h : Int) : chainB nx h [] = (h == -1) := rfl

theorem chainB_cons (nx : List Int) (h : Int) (i : Nat) (l : List Nat) :
    chainB nx h (i :: l)
      = (h == (i : Int) && decide (i < nx.length)
         && chainB nx (nthI nx (-1) (i : Int)) l) := rfl

theorem chainB_cons_iff (nx : List Int) (h : Int) (i : Nat) (l : List Nat) :
    chainB nx h (i :: l) = true
      ↔ h = (i : Int) ∧ i < nx.length ∧ chainB nx (nthI nx (-1) (i : Int)) l = true := by
  rw [chainB_cons]
  simp [Bool.and_eq_true, and_assoc]

theorem chainB_bound (nx : List Int) :
    ∀ (l : List Nat) (h : Int), chainB nx h l = true → ∀ j ∈ l, j < nx.length := by
  intro l
  induction l with
  | nil => intro h _ j hj; cases hj
  | cons i l ih =>
      intro h hc j hj
      obtain ⟨h1, h2, h3⟩ := (chainB_cons_iff nx h i l).mp hc
      rcases List.mem_cons.mp hj with hj | hj
      · subst hj; exact h2
      · exact ih _ h3 j hj

theorem chainB_setI (nx : List Int) (k a : Int) :
    ∀ (l : List Nat) (h : Int), (∀ j ∈ l, (j : Int) ≠ k)
      → chainB (setI nx k a) h l = chainB nx h l := by
  intro l
  induction l with
  | nil => intro h _; rfl
  | cons i l ih =>
      intro h hk
      rw [chainB_cons, chainB_cons, length_setI,
          nthI_setI_ne _ _ _ _ _ (fun hx => hk i (List.mem_cons_self i l) hx.symm),
          ih _ (fun j hj => hk j (List.mem_cons_of_mem i hj))]

theorem nodup_length_le (l : List Nat) (m : Nat) (hnd : l.Nodup)
    (hb : ∀ j ∈ l, j < m) : l.length ≤ m := by
  rw [← List.toFinset_card_of_nodup hnd]
  have hsub : l.toFinset ⊆ Finset.range m :=
    fun x hx => Finset.mem_range.mpr (hb x (List.mem_toFinset.mp hx))
  simpa using Finset.card_le_card hsub

theorem chain_traverse {T : Type} [Inhabited T] (s : Soa T) :
    ∀ (l : List Nat) (h : Int) (fuel : Nat),
      chainB s.next_ h l = true → l.length ≤ fuel
      → Soa.traverseFrom s fuel h
          = l.map (fun i : Nat => (nthI s.values_ default (i : Int), (i : Int))) := by
  intro l
  induction l with
  | nil =>
      intro h fuel hc _
      rw [chainB_nil] at hc
      rw [beq_iff_eq] at hc
      subst hc
      exact traverseFrom_neg1 s fuel
  | cons i l ih =>
      intro h fuel hc hf
      obtain ⟨h1, h2, h3⟩ := (chainB_cons_iff _ _ _ _).mp hc
      subst h1
      cases fuel with
      | zero => simp at hf
      | succ f =>
          rw [Soa.traverseFrom, if_neg (by omega)]
          rw [ih _ f h3 (by simpa using hf)]
          rfl


theorem wfB_unpack {T : Type} [Inhabited T] (s : Soa T) (l : List Nat)
    (h : Soa.wfB s l = true) :
    chainB s.next_ s.head_ l = true ∧ prevB s.prev_ (-1) l = true ∧ s.tail_ = lastIdx l
    ∧ l.Nodup ∧ s.size_ = l.length ∧ s.next_.length = s.values_.length
    ∧ s.prev_.length = s.values_.length := by
  unfold Soa.wfB at h
  simp only [Bool.and_eq_true, beq_iff_eq, decide_eq_true_eq] at h
  obtain ⟨⟨⟨⟨⟨⟨h1, h2⟩, h3⟩, h4⟩, h5⟩, h6⟩, h7⟩ := h
  exact ⟨h1, h2, h3, h4, h5, h6, h7⟩

theorem size_dec_eq (n : Nat) (h1 : 1 ≤ n) (h2 : n < SIZET_MOD) :
    (n + (SIZET_MOD - 1)) % SIZET_MOD = n - 1 := by
  have h3 : n + (SIZET_MOD - 1) = (n - 1) + SIZET_MOD := by
    unfold SIZET_MOD
    omega
  rw [h3, Nat.add_mod_right]
  exact Nat.mod_eq_of_lt (by omega)

theorem map_fst_pairs {T : Type} (f : Nat → T) (l : List Nat) :
    (l.map (fun i => (f i, (i : Int)))).map Prod.fst = l.map f := by
  rw [List.map_map]
  rfl

/-- C8 as stated is false on the code: after push_back 1,2,3 and a double
erase of the middle handle (which passes validation because release never
bumps generations and whose reset links then overwrite head_ and tail_ with
-1), pop_front fails with Empty although size() is 1, not 0. -/
theorem C8_counterexample_empty_with_nonzero_size :
    Soa.init Nat 3 = .ok c8s0 ∧ c8s.size_ = 1 ∧ Soa.pop_front c8s = .error .Empty := by
  refine ⟨by decide, by decide, by decide⟩

/-- C8 amended: on any state satisfying the list representation invariant
(which the stale-handle double erase of the counterexample can break),
pop_front fails with Empty exactly when size() = 0, and on a nonempty list it
returns the head value, decreases size_ by one and removes exactly the first
element of the for_each output; a freshly constructed list always fails with
Empty. -/
theorem C8_amended_pop_front_contract {T : Type} [Inhabited T] (s : Soa T)
    (l : List Nat) (hwf : Soa.wfB s l = true) (hM : s.size_ < SIZET_MOD) :
    (Soa.pop_front s = .error .Empty ↔ Soa.size s = 0)
    ∧ (∀ (v : T) (s' : Soa T), Soa.pop_front s = .ok (v, s')
        → v = nthI s.values_ default s.head_
          ∧ s'.size_ = s.size_ - 1
          ∧ (Soa.forEachOut s').map Prod.fst = ((Soa.forEachOut s).map Prod.fst).tail)
    ∧ (∀ (c : Nat) (s0 : Soa T), Soa.init T c = .ok s0
        → Soa.pop_front s0 = .error .Empty) := by
  obtain ⟨hch, hpv, htl, hnd, hsz, hlen1, hlen2⟩ := wfB_unpack s l hwf
  refine ⟨⟨?_, ?_⟩, ?_, ?_⟩
  · intro he
    obtain ⟨-, hhd⟩ := pop_front_error_facts s _ he
    cases l with
    | nil => simp [Soa.size, hsz]
    | cons i l' =>
        obtain ⟨h1, -, -⟩ := (chainB_cons_iff _ _ _ _).mp hch
        rw [hhd] at h1
        omega
  · intro h0
    rw [Soa.size] at h0
    have hl : l = [] := List.eq_nil_of_length_eq_zero (by omega)
    subst hl
    rw [chainB_nil, beq_iff_eq] at hch
    unfold Soa.pop_front
    rw [if_pos hch]
  · intro v s' hp
    cases l with
    | nil =>
        rw [chainB_nil, beq_iff_eq] at hch
        unfold Soa.pop_front at hp
        rw [if_pos hch] at hp
        exact absurd hp (by simp)
    | cons i l' =>
        obtain ⟨hh, hib, hch'⟩ := (chainB_cons_iff _ _ _ _).mp hch
        have hi_not : i ∉ l' := (List.nodup_cons.mp hnd).1
        have hnd' : l'.Nodup := (List.nodup_cons.mp hnd).2
        have hsz1 : 1 ≤ s.size_ := by rw [hsz]; simp
        unfold Soa.pop_front at hp
        rw [if_neg (by rw [hh]; omega)] at hp
        simp only [Except.ok.injEq, Prod.mk.injEq] at hp
        obtain ⟨hv, hs'⟩ := hp
        subst hs'
        refine ⟨?_, ?_, ?_⟩
        · rw [← hv]
          show nthI (if nthI s.next_ (-1) s.head_ ≠ -1 then _ else _ : Soa T).values_
              default s.head_ = _
          split <;> rfl
        · show ((if nthI s.next_ (-1) s.head_ ≠ -1 then _ else _ : Soa T).size_
              + (SIZET_MOD - 1)) % SIZET_MOD = s.size_ - 1
          split <;> exact size_dec_eq s.size_ hsz1 hM
        · have hforS : (Soa.forEachOut s).map Prod.fst
              = (i :: l').map (fun j : Nat => nthI s.values_ default (j : Int)) := by
            unfold Soa.forEachOut Soa.capacity
            rw [chain_traverse s (i :: l') s.head_ _ hch
                  (le_trans (nodup_length_le _ _ hnd
                      (fun j hj => chainB_bound _ _ _ hch j hj)) (le_of_eq hlen1))]
            exact map_fst_pairs _ _
          have hchS' : chainB (setI s.next_ s.head_ (-1))
              (nthI s.next_ (-1) s.head_) l' = true := by
            rw [chainB_setI _ _ _ _ _ (fun j hj => by
                  rw [hh]
                  intro hx
                  have hji : j = i := by omega
                  exact hi_not (hji ▸ hj))]
            rw [hh]
            exact hch'
          have hbound' : l'.length ≤ s.values_.length := by
            refine le_trans (nodup_length_le _ _ hnd' ?_) (le_of_eq hlen1)
            intro j hj
            have hb := chainB_bound _ _ _ hchS' j hj
            rwa [length_setI] at hb
          have hforS' : ∀ w : Soa T, w.values_ = s.values_
              → w.next_ = setI s.next_ s.head_ (-1)
              → w.head_ = nthI s.next_ (-1) s.head_
              → (Soa.forEachOut w).map Prod.fst
                  = l'.map (fun j : Nat => nthI s.values_ default (j : Int)) := by
            intro w hwv hwn hwh
            unfold Soa.forEachOut Soa.capacity
            rw [chain_traverse w l' w.head_ w.values_.length
                  (by rw [hwn, hwh]; exact hchS') (by rw [hwv]; exact hbound'),
                hwv]
            exact map_fst_pairs _ _
          rw [hforS]
          simp only [List.map_cons, List.tail_cons]
          split
          · exact hforS' _ rfl rfl rfl
          · exact hforS' _ rfl rfl rfl
  · intro c s0 hin
    obtain ⟨-, -, -, -, -, hh0, -, -⟩ := init_fields T c s0 hin
    unfold Soa.pop_front
    rw [if_pos hh0]

/-- Witness for the amended C8 on a concrete well-formed state. -/
theorem C8_amended_pop_front_contract_witness :
    Soa.pop_front c9s = .error .Empty ↔ Soa.size c9s = 0 :=
  (C8_amended_pop_front_contract c9s [0, 1, 2] (by decide) (by decide)).1


theorem chainB_split2 (nx : List Int) :
    ∀ (l1 : List Nat) (h : Int) (i t : Nat) (l2 : List Nat),
      chainB nx h (l1 ++ i :: t :: l2) = true
      → nthI nx (-1) (i : Int) = (t : Int) ∧ i < nx.length ∧ t < nx.length
        ∧ chainB nx (nthI nx (-1) (t : Int)) l2 = true := by
  intro l1
  induction l1 with
  | nil =>
      intro h i t l2 hc
      rw [List.nil_append] at hc
      obtain ⟨h1, h2, h3⟩ := (chainB_cons_iff _ _ _ _).mp hc
      obtain ⟨h4, h5, h6⟩ := (chainB_cons_iff _ _ _ _).mp h3
      exact ⟨h4, h2, h5, h4 ▸ h6⟩
  | cons j l1' ih =>
      intro h i t l2 hc
      rw [List.cons_append] at hc
      obtain ⟨-, -, h3⟩ := (chainB_cons_iff _ _ _ _).mp hc
      exact ih _ i t l2 h3

theorem chain_cut (nx : List Int) (i t : Nat) (l2 : List Nat)
    (hti : (t : Int) ≠ (i : Int)) (hil2 : i ∉ l2) (htl2 : t ∉ l2) :
    ∀ (l1 : List Nat) (h : Int),
      chainB nx h (l1 ++ i :: t :: l2) = true
      → (∀ j ∈ l1, j ≠ i ∧ j ≠ t)
      → chainB (setI (setI nx (i : Int) (nthI nx (-1) (t : Int))) (t : Int) (-1)) h
          (l1 ++ i :: l2) = true := by
  intro l1
  induction l1 with
  | nil =>
      intro h hc _
      rw [List.nil_append] at hc
      obtain ⟨h1, h2, h3⟩ := (chainB_cons_iff _ _ _ _).mp hc
      obtain ⟨h4, h5, h6⟩ := (chainB_cons_iff _ _ _ _).mp h3
      rw [List.nil_append]
      apply (chainB_cons_iff _ _ _ _).mpr
      refine ⟨h1, by rw [length_setI, length_setI]; exact h2, ?_⟩
      rw [nthI_setI_ne _ _ _ _ _ hti,
          nthI_setI_self _ _ _ _ (by omega) (by omega)]
      rw [chainB_setI _ _ _ _ _ (fun j hj hx => htl2 (by
            have : j = t := by omega
            exact this ▸ hj)),
          chainB_setI _ _ _ _ _ (fun j hj hx => hil2 (by
            have : j = i := by omega
            exact this ▸ hj))]
      exact h6
  | cons j l1' ih =>
      intro h hc hj
      rw [List.cons_append] at hc
      obtain ⟨h1, h2, h3⟩ := (chainB_cons_iff _ _ _ _).mp hc
      rw [List.cons_append]
      apply (chainB_cons_iff _ _ _ _).mpr
      obtain ⟨hji, hjt⟩ := hj j (List.mem_cons_self j l1')
      refine ⟨h1, by rw [length_setI, length_setI]; exact h2, ?_⟩
      rw [nthI_setI_ne _ _ _ _ _ (by omega : (t : Int) ≠ (j : Int)),
          nthI_setI_ne _ _ _ _ _ (by omega : (i : Int) ≠ (j : Int))]
      exact ih _ h3 (fun j' hj' => hj j' (List.mem_cons_of_mem j hj'))

/-- C9: erase_after fails with InvalidHandle exactly when the handle does not
validate (checked first, so it takes precedence), fails with NoSuccessor when
the handle validates but its slot's next link is null, and otherwise — on a
state satisfying the list representation invariant, with the handle's index a
chain element followed by the successor t — removes exactly t from the
for_each output, pushes t on the free list and decreases size_ by one. -/
theorem C9_erase_after_contract (T : Type) [Inhabited T] :
    (∀ (s : Soa T) (h : NodeHandle), Soa.validHandle s h = false
        → Soa.erase_after s h = .error .InvalidHandle)
    ∧ (∀ (s : Soa T) (h : NodeHandle), Soa.validHandle s h = true
        → nthI s.next_ (-1) h.index = -1
        → Soa.erase_after s h = .error .NoSuccessor)
    ∧ (∀ (s : Soa T) (l1 l2 : List Nat) (i t : Nat) (h : NodeHandle),
        Soa.wfB s (l1 ++ i :: t :: l2) = true → s.size_ < SIZET_MOD
        → Soa.validHandle s h = true → h.index = (i : Int)
        → ∃ s', Soa.erase_after s h = .ok s'
            ∧ s'.size_ = s.size_ - 1
            ∧ s'.free_list_ = s.free_list_ ++ [(t : Int)]
            ∧ (Soa.forEachOut s).map Prod.fst
                = (l1 ++ i :: t :: l2).map (fun j : Nat => nthI s.values_ default (j : Int))
            ∧ (Soa.forEachOut s').map Prod.fst
                = (l1 ++ i :: l2).map (fun j : Nat => nthI s.values_ default (j : Int))) := by
  refine ⟨?_, ?_, ?_⟩
  · intro s h hv
    unfold Soa.erase_after
    rw [if_neg (by simp [hv])]
  · intro s h hv ht
    unfold Soa.erase_after
    rw [if_pos hv]
    simp only [ht, if_pos]
  · intro s l1 l2 i t h hwf hM hv hidx
    obtain ⟨hch, hpv, htl, hnd, hsz, hlen1, hlen2⟩ := wfB_unpack s _ hwf
    obtain ⟨hnd1, hndX, hdisj⟩ := List.nodup_append.mp hnd
    have hiX : i ∉ t :: l2 := (List.nodup_cons.mp hndX).1
    have hndtl2 : (t :: l2).Nodup := (List.nodup_cons.mp hndX).2
    have htl2 : t ∉ l2 := (List.nodup_cons.mp hndtl2).1
    have hndl2 : l2.Nodup := (List.nodup_cons.mp hndtl2).2
    have hit : i ≠ t := fun hx => hiX (hx ▸ List.mem_cons_self t l2)
    have hil2 : i ∉ l2 := fun hx => hiX (List.mem_cons_of_mem t hx)
    have hl1 : ∀ j ∈ l1, j ≠ i ∧ j ≠ t := by
      intro j hj
      have hnotX : j ∉ i :: t :: l2 := fun hx => hdisj hj hx
      exact ⟨fun hx => hnotX (hx ▸ List.mem_cons_self i (t :: l2)),
             fun hx => hnotX (List.mem_cons_of_mem i (hx ▸ List.mem_cons_self t l2))⟩
    obtain ⟨hnext_i, hib, htb, hch_t⟩ := chainB_split2 s.next_ l1 s.head_ i t l2 hch
    have hsz1 : 1 ≤ s.size_ := by
      rw [hsz]
      simp only [List.length_append, List.length_cons]
      omega
    have hchnew : chainB (setI (setI s.next_ (i : Int) (nthI s.next_ (-1) (t : Int)))
        (t : Int) (-1)) s.head_ (l1 ++ i :: l2) = true :=
      chain_cut s.next_ i t l2 (by omega) hil2 htl2 l1 s.head_ hch hl1
    have hndnew : (l1 ++ i :: l2).Nodup := by
      apply List.nodup_append.mpr
      refine ⟨hnd1, List.nodup_cons.mpr ⟨hil2, hndl2⟩, ?_⟩
      intro j hj hx
      rcases List.mem_cons.mp hx with hx | hx
      · exact (hl1 j hj).1 hx
      · exact hdisj hj (List.mem_cons_of_mem i (List.mem_cons_of_mem t hx))
    have hboundnew : (l1 ++ i :: l2).length ≤ s.values_.length := by
      refine le_trans (nodup_length_le _ _ hndnew ?_) (le_of_eq hlen1)
      intro j hj
      have hb := chainB_bound _ _ _ hchnew j hj
      rwa [length_setI, length_setI] at hb
    have hbound : (l1 ++ i :: t :: l2).length ≤ s.values_.length :=
      le_trans (nodup_length_le _ _ hnd (fun j hj => chainB_bound _ _ _ hch j hj))
        (le_of_eq hlen1)
    unfold Soa.erase_after
    rw [if_pos hv]
    simp only [hidx, hnext_i]
    rw [if_neg (by omega : ¬((t : Int) = -1))]
    have hforS : (Soa.forEachOut s).map Prod.fst
        = (l1 ++ i :: t :: l2).map (fun j : Nat => nthI s.values_ default (j : Int)) := by
      unfold Soa.forEachOut Soa.capacity
      rw [chain_traverse s (l1 ++ i :: t :: l2) s.head_ _ hch hbound]
      exact map_fst_pairs _ _
    have hW : ∀ w : Soa T, w.values_ = s.values_
        → w.next_ = setI (setI s.next_ (i : Int) (nthI s.next_ (-1) (t : Int)))
            (t : Int) (-1)
        → w.head_ = s.head_
        → (Soa.forEachOut w).map Prod.fst
            = (l1 ++ i :: l2).map (fun j : Nat => nthI s.values_ default (j : Int)) := by
      intro w hwv hwn hwh
      unfold Soa.forEachOut Soa.capacity
      rw [chain_traverse w (l1 ++ i :: l2) w.head_ w.values_.length
            (by rw [hwn, hwh]; exact hchnew) (by rw [hwv]; exact hboundnew), hwv]
      exact map_fst_pairs _ _
    by_cases hnn : nthI s.next_ (-1) (t : Int) = -1
    · rw [if_neg (not_not_intro hnn)]
      exact ⟨_, rfl, size_dec_eq s.size_ hsz1 hM, rfl, hforS, hW _ rfl rfl rfl⟩
    · rw [if_pos hnn]
      exact ⟨_, rfl, size_dec_eq s.size_ hsz1 hM, rfl, hforS, hW _ rfl rfl rfl⟩

/-- Witness for C9 at a concrete list and handle. -/
theorem C9_erase_after_contract_witness :
    (Soa.erase_after c9s { index := -7, generation := 0 } = .error .InvalidHandle)
    ∧ (Soa.erase_after c9s { index := 2, generation := 1 } = .error .NoSuccessor)
    ∧ (∃ s', Soa.erase_after c9s { index := 0, generation := 1 } = .ok s'
        ∧ s'.size_ = c9s.size_ - 1
        ∧ s'.free_list_ = c9s.free_list_ ++ [(1 : Int)]
        ∧ (Soa.forEachOut c9s).map Prod.fst
            = ([] ++ 0 :: 1 :: [2]).map (fun j : Nat => nthI c9s.values_ default (j : Int))
        ∧ (Soa.forEachOut s').map Prod.fst
            = ([] ++ 0 :: [2]).map (fun j : Nat => nthI c9s.values_ default (j : Int))) :=
  ⟨(C9_erase_after_contract Nat).1 c9s _ (by decide),
   (C9_erase_after_contract Nat).2.1 c9s _ (by decide) (by decide),
   (C9_erase_after_contract Nat).2.2 c9s [] [2] 0 1 _ (by decide) (by decide)
     (by decide) (by decide)⟩


end ArrList
